import Mathlib

/-!
Shallow embedding of the MadHacks2025 backend (src/backend) for checking the
specification's claims about the content-addressed step ledger, the step
materializer (`store_gemini_results` in database.py), the asset-derivation
orchestrator (`generate_tts_files` / `generate_3d_models` in server.py), the
content addresser (`calculate_pdf_hash` in database.py) and the asset accessor
(`get_mp3` in server.py).

Modelling conventions:
- Python `bytes` values are `List Nat` (one entry per byte).
- The sqlite `instructions` table is a `List StepRow`; a SQL `UPDATE ... WHERE`
  is a `List.map` that rewrites the matching rows, a `SELECT ... WHERE` is a
  `List.filter`.
- The `volume/` directory is a function `String → Option String` from file
  name to file content (`none` means the file does not exist); where only
  existence matters a `String → Bool` view is used.
- Fallible Python code (raised exceptions) is modelled with `Except Unit`.
- The external collaborators (Gemini classification, fish.audio narration,
  Tripo 3D reconstruction) are oracle parameters; `hashlib.sha256` is an
  abstract digest function `H : List Nat → List Nat` applied to the
  concatenation of all byte blocks fed to `update`.
- `asyncio.gather(*tasks, return_exceptions=True)` returns one outcome per
  submitted task, in submission order, with exceptions captured as values;
  this is modelled by mapping the oracle over the submitted task list, so the
  i-th entry of the result list is the outcome of the i-th submitted task.
-/

/-- One entry of the classifier result list `gemini_results["matches"]`
(gemini_service.py builds one such JSON object per image).  `image_index` is
the classifier's 0-based index back into the submitted image list, per the
interface contract and the prompt in gemini_service.py. -/
structure ClassifierMatch where
  image_index : Nat
  is_instruction : Bool
  instruction_title : String
  instruction_description : String
deriving DecidableEq, Repr

/-- Per-image position metadata produced by preprocessing.py
(`{'page_number': ..., 'y_percentage': ...}`); a missing dict key reads as
`None`, hence the `Option` fields. -/
structure Position where
  page_number : Option Int
  y_percentage : Option Rat
deriving DecidableEq, Repr

/-- One row of the sqlite `instructions` table (database.py `init_db`). -/
structure StepRow where
  hash : List Nat
  pdf_filename : String
  step : Nat
  image_filename : String
  glb_filename : Option String
  mp3_filename : Option String
  instruction_filename : String
  page_number : Option Int
  y_percentage : Option Rat
deriving DecidableEq, Repr

/-- Lower-case hex digit, as produced by Python `bytes.hex()`. -/
def hexDigitChar (n : Nat) : Char :=
  if n < 10 then Char.ofNat (48 + n) else Char.ofNat (87 + n)

/-- Two-digit lower-case hex rendering of one byte. -/
def byteToHex (b : Nat) : String :=
  String.mk [hexDigitChar (b / 16 % 16), hexDigitChar (b % 16)]

/-- Python `bytes.hex()`: lower-case hex of a byte string. -/
def bytesToHex (bs : List Nat) : String :=
  String.join (bs.map byteToHex)

/-- Python `pdf_hash_bytes.hex()[:16]` — the 16-hex-character prefix used as the
externally visible key. -/
def hashHexOf (bs : List Nat) : String :=
  String.mk ((bytesToHex bs).data.take 16)

/-- Index of the last `'.'` in a character list, if any. -/
def lastDotIdx (cs : List Char) : Option Nat :=
  match cs.reverse.findIdx? (fun c => c = '.') with
  | none => none
  | some j => some (cs.length - 1 - j)

/-- Python `pathlib.Path(name).suffix` for a plain file name (no directory
separators): the substring from the last dot, empty when the name has no dot,
starts with its only dot, or ends in a dot. -/
def pathSuffix (s : String) : String :=
  match lastDotIdx s.data with
  | none => ""
  | some i => if 0 < i ∧ i + 1 < s.data.length then String.mk (s.data.drop i) else ""


/-- The `position_data` computation in `store_gemini_results`
(database.py lines 112-115): `position_data = None`, then
`if image_positions and image_index < len(image_positions):
position_data = image_positions[image_index]`.  `image_positions` is falsy
when it is `None` or the empty list; a list element can itself be `None`. -/
def lookupPosition (image_positions : Option (List (Option Position))) (i : Nat) :
    Option Position :=
  match image_positions with
  | none => none
  | some ps => if 0 < ps.length ∧ i < ps.length then (ps.get? i).join else none

/-- The outcome of a run of `store_gemini_results`:
the returned bytes value, the rows inserted into the `instructions` table,
the `shutil.copy2` image copies performed (source, destination), and the
instruction text files written (file name, content). -/
structure StoreOutcome where
  ret : List Nat
  inserted : List StepRow
  copied : List (String × String)
  written : List (String × String)
deriving DecidableEq, Repr

/-- The `for match in gemini_results.get("matches", [])` loop of
`store_gemini_results` (database.py lines 81-142), carrying `step_number`.
Non-instructional entries are skipped; for an instructional entry the source
image is resolved by `image_filenames[image_index]` (an out-of-range index
raises `IndexError`, modelled as `Except.error`), the image is copied to its
hash-step name only when the source file exists, the instruction text file
`title\n\ndescription` is written unconditionally, and a row is inserted
unconditionally. -/
def storeLoop (pdf_hash_bytes : List Nat) (hash_hex : String) (pdf_filename : String)
    (image_filenames : List String) (image_positions : Option (List (Option Position)))
    (fsExists : String → Bool) :
    List ClassifierMatch → Nat →
    Except Unit (List StepRow × List (String × String) × List (String × String))
  | [], _ => .ok ([], [], [])
  | m :: ms, step_number =>
    if !m.is_instruction then
      storeLoop pdf_hash_bytes hash_hex pdf_filename image_filenames image_positions
        fsExists ms step_number
    else
      match image_filenames[m.image_index]? with
      | none => .error ()
      | some old_image_filename =>
        let image_ext := pathSuffix old_image_filename
        let new_image_filename := hash_hex ++ "-" ++ toString step_number ++ image_ext
        let instruction_filename := hash_hex ++ "-" ++ toString step_number ++ ".txt"
        let copies : List (String × String) :=
          if fsExists old_image_filename then [(old_image_filename, new_image_filename)]
          else []
        let position_data := lookupPosition image_positions m.image_index
        let row : StepRow :=
          { hash := pdf_hash_bytes
            pdf_filename := pdf_filename
            step := step_number
            image_filename := new_image_filename
            glb_filename := none
            mp3_filename := none
            instruction_filename := instruction_filename
            page_number := position_data.bind (fun p => p.page_number)
            y_percentage := position_data.bind (fun p => p.y_percentage) }
        match storeLoop pdf_hash_bytes hash_hex pdf_filename image_filenames
            image_positions fsExists ms (step_number + 1) with
        | .error e => .error e
        | .ok (rows, cps, wrs) =>
          .ok (row :: rows, copies ++ cps,
            (instruction_filename,
              m.instruction_title ++ "\n\n" ++ m.instruction_description) :: wrs)

/-- Model of `store_gemini_results` (database.py lines 38-151).  `db` is the current
contents of the `instructions` table; `fsExists` tells whether a file exists
in `volume/`.  Returns the effects of the call: an empty hash returns `b''`
immediately; a hash that already has rows short-circuits returning the hash;
otherwise the loop runs and its inserts are committed (on an `IndexError`
nothing is committed). -/
def store_gemini_results (db : List StepRow) (pdf_hash_bytes : List Nat)
    (pdf_filename : String) (image_filenames : List String)
    (gemini_matches : List ClassifierMatch) (image_positions : Option (List (Option Position)))
    (fsExists : String → Bool) : Except Unit StoreOutcome :=
  if pdf_hash_bytes = [] then .ok ⟨[], [], [], []⟩
  else
    let existing_count := (db.filter (fun r => r.hash = pdf_hash_bytes)).length
    if existing_count > 0 then .ok ⟨pdf_hash_bytes, [], [], []⟩
    else
      let hash_hex := hashHexOf pdf_hash_bytes
      match storeLoop pdf_hash_bytes hash_hex pdf_filename image_filenames
          image_positions fsExists gemini_matches 0 with
      | .error e => .error e
      | .ok (rows, cps, wrs) => .ok ⟨pdf_hash_bytes, rows, cps, wrs⟩

/-- The `iter(lambda: f.read(4096), b"")` chunking in `calculate_pdf_hash`
(database.py lines 29-32): split a byte string into successive blocks of at
most 4096 bytes. -/
def chunks4096 (l : List Nat) : List (List Nat) :=
  if _h : l = [] then []
  else l.take 4096 :: chunks4096 (l.drop 4096)
termination_by l.length
decreasing_by
  simp only [List.length_drop]
  exact Nat.sub_lt (List.length_pos.mpr _h) (by norm_num)

/-- Model of `calculate_pdf_hash` (database.py lines 25-36): stream the file in 4096
byte chunks through a sha256 accumulator (`H` is the digest of the
concatenation of all fed chunks) and return the raw digest bytes; a file that
cannot be opened (`FileNotFoundError`) yields the sentinel `b''`. -/
def calculate_pdf_hash (H : List Nat → List Nat) (fsBytes : String → Option (List Nat))
    (file_path : String) : List Nat :=
  match fsBytes file_path with
  | none => []
  | some content => H (List.flatten (chunks4096 content))

/-- Whether one character list starts with another (used to locate the
`"\n\n"` separator). -/
def leadsWith : List Char → List Char → Bool
  | [], _ => true
  | _ :: _, [] => false
  | a :: as, b :: bs => a = b && leadsWith as bs

/-- The character list that follows the first occurrence of `sep`, if any. -/
def afterSep (sep : List Char) : List Char → Option (List Char)
  | [] => none
  | c :: cs =>
    if leadsWith sep (c :: cs) then some ((c :: cs).drop sep.length)
    else afterSep sep cs

/-- Python `content.split("\n\n", 1)` followed by
`description = parts[1] if len(parts) > 1 else parts[0]`
(server.py lines 122-123 and 175-176): everything after the first blank-line
separator, or the whole text when there is none. -/
def descriptionOf (content : String) : String :=
  match afterSep ['\n', '\n'] content.data with
  | none => content
  | some rest => String.mk rest


/-- Model of `update_mp3_filename` (database.py lines 169-182):
`UPDATE instructions SET mp3_filename = ? WHERE hash = ? AND step = ?`. -/
def update_mp3_filename (db : List StepRow) (pdf_hash_bytes : List Nat) (step : Nat)
    (mp3_filename : String) : List StepRow :=
  db.map (fun r =>
    if r.hash = pdf_hash_bytes ∧ r.step = step then { r with mp3_filename := some mp3_filename }
    else r)

/-- Model of `update_glb_filename` (database.py lines 184-197):
`UPDATE instructions SET glb_filename = ? WHERE hash = ? AND step = ?`. -/
def update_glb_filename (db : List StepRow) (pdf_hash_bytes : List Nat) (step : Nat)
    (glb_filename : String) : List StepRow :=
  db.map (fun r =>
    if r.hash = pdf_hash_bytes ∧ r.step = step then { r with glb_filename := some glb_filename }
    else r)

/-- Model of `get_instructions_by_hash` (database.py lines 153-167):
`SELECT step, instruction_filename FROM instructions WHERE hash = ? ORDER BY step`.
The materializer inserts rows in increasing step order, so for ledgers it
produces the filter order below already is the `ORDER BY step` order; none of
the properties proved here depend on the enumeration order of the rows. -/
def get_instructions_by_hash (db : List StepRow) (pdf_hash_bytes : List Nat) :
    List (Nat × String) :=
  (db.filter (fun r => r.hash = pdf_hash_bytes)).map (fun r => (r.step, r.instruction_filename))

/-- Model of `get_instructions_with_images` (database.py lines 199-213):
`SELECT step, image_filename FROM instructions WHERE hash = ? ORDER BY step`
(same remark about row order as `get_instructions_by_hash`). -/
def get_instructions_with_images (db : List StepRow) (pdf_hash_bytes : List Nat) :
    List (Nat × String) :=
  (db.filter (fun r => r.hash = pdf_hash_bytes)).map (fun r => (r.step, r.image_filename))

/-- The sqlite match `hex(hash) LIKE ? || '%'` used by the hex-prefix lookups
(database.py lines 249-252, 267-272): the row's full hex digest starts with
the given (case-normalized) hex pattern. -/
def hexMatches (hash_hex : String) (bs : List Nat) : Bool :=
  (bytesToHex bs).data.take hash_hex.data.length = hash_hex.data

/-- Model of `get_file_info_by_hash_step` (database.py lines 256-283): the first row
whose hex hash starts with `hash_hex` and whose step matches (`fetchone`). -/
def get_file_info_by_hash_step (db : List StepRow) (hash_hex : String) (step : Nat) :
    Option StepRow :=
  (db.filter (fun r => hexMatches hash_hex r.hash ∧ r.step = step)).head?

/-- Python `str.strip()` whitespace set (the characters Python treats as
whitespace that can occur in these text files). -/
def isPySpace (c : Char) : Bool :=
  c = ' ' || c = '\n' || c = '\t' || c = '\r' || c = Char.ofNat 11 || c = Char.ofNat 12

/-- Python `content.strip()`. -/
def pyStrip (s : String) : String :=
  String.mk (((s.data.dropWhile isPySpace).reverse.dropWhile isPySpace).reverse)

/-- Deterministic narration artifact name `f"{hash_hex}-{step}.mp3"`
(server.py line 105, tts.py line 13). -/
def mp3Name (hash_hex : String) (step : Nat) : String :=
  hash_hex ++ "-" ++ toString step ++ ".mp3"

/-- Deterministic 3D artifact name `f"{hash_hex}-{step}.glb"`
(server.py line 198, tripo.py line 49). -/
def glbName (hash_hex : String) (step : Nat) : String :=
  hash_hex ++ "-" ++ toString step ++ ".glb"

/-- The value produced by awaiting one derivation task under
`asyncio.gather(..., return_exceptions=True)`: a raised exception
(`.error ()`), a truthy result `.ok (some filename)`, or a falsy result
`.ok none` (`None` or an empty string). -/
abbrev TaskOutcome := Except Unit (Option String)

/-- The observable result of one `generate_tts_files` run: the table after
the run, the submitted task list `tts_tasks` as (step, narration text) pairs
in submission order, the gathered outcome list `tts_results` (positionally
aligned with the tasks), and the `generated`/`skipped` counters. -/
structure TTSRun where
  db : List StepRow
  tasks : List (Nat × String)
  results : List TaskOutcome
  generated : Nat
  skipped : Nat
deriving Repr

/-- First phase of `generate_tts_files` (server.py lines 103-127): walk the
rows; when the deterministic mp3 already exists only update the ledger and
count the step as skipped, otherwise read the instruction file (a missing
file raises, aborting the whole function) and submit a narration task for
its description. Returns the table after the in-loop updates, the submitted
task list in submission order, and the skipped count. -/
def ttsPhase1 (pdf_hash : List Nat) (hash_hex : String) (fs : String → Option String) :
    List (Nat × String) → List StepRow →
    Except Unit (List StepRow × List (Nat × String) × Nat)
  | [], db => .ok (db, [], 0)
  | (step, instruction_filename) :: rest, db =>
    if (fs (mp3Name hash_hex step)).isSome then
      match ttsPhase1 pdf_hash hash_hex fs rest
          (update_mp3_filename db pdf_hash step (mp3Name hash_hex step)) with
      | .error e => .error e
      | .ok (db2, tasks, sk) => .ok (db2, tasks, sk + 1)
    else
      match fs instruction_filename with
      | none => .error ()
      | some content =>
        let description := descriptionOf (pyStrip content)
        match ttsPhase1 pdf_hash hash_hex fs rest db with
        | .error e => .error e
        | .ok (db2, tasks, sk) => .ok (db2, (step, description) :: tasks, sk)

/-- The `for (step, _), result in zip(tts_tasks, tts_results)` loop
(server.py lines 134-144): an exception outcome is only logged, a truthy
result updates the ledger and counts as generated, a falsy result is only
logged. Returns the updated table and the generated count. -/
def applyTTSResults (pdf_hash : List Nat) :
    List ((Nat × String) × TaskOutcome) → List StepRow → List StepRow × Nat
  | [], db => (db, 0)
  | ((step, _), res) :: rest, db =>
    match res with
    | .error _ => applyTTSResults pdf_hash rest db
    | .ok none => applyTTSResults pdf_hash rest db
    | .ok (some fn) =>
      let out := applyTTSResults pdf_hash rest (update_mp3_filename db pdf_hash step fn)
      (out.1, out.2 + 1)

/-- Model of `generate_tts_files` (server.py lines 92-151).  `oracle step description`
is the outcome of awaiting `tts(description, hash_hex, step)`; the gather
with `return_exceptions=True` yields the outcomes of the submitted tasks in
submission order, so each task completes and is collected independently of
the other tasks' outcomes. -/
def generate_tts_files (db : List StepRow) (fs : String → Option String)
    (oracle : Nat → String → TaskOutcome) (pdf_hash : List Nat) (hash_hex : String) :
    Except Unit TTSRun :=
  let rows := get_instructions_by_hash db pdf_hash
  match ttsPhase1 pdf_hash hash_hex fs rows db with
  | .error e => .error e
  | .ok (db1, tasks, skipped) =>
    let results := tasks.map (fun t => oracle t.1 t.2)
    let out := applyTTSResults pdf_hash (tasks.zip results) db1
    .ok { db := out.1, tasks := tasks, results := results,
          generated := out.2, skipped := skipped }

/-- The observable result of one `generate_3d_models` run (same shape as
`TTSRun`; tasks are (step, image path) pairs). -/
structure TDRun where
  db : List StepRow
  tasks : List (Nat × String)
  results : List TaskOutcome
  generated : Nat
  skipped : Nat
deriving Repr

/-- First phase of `generate_3d_models` (server.py lines 196-210): when the
deterministic glb already exists only update the ledger and count the step as
skipped, otherwise submit a reconstruction task for `volume/<image>`.  No
file is read here, so this phase cannot raise. -/
def tdPhase1 (pdf_hash : List Nat) (hash_hex : String) (fs : String → Option String) :
    List (Nat × String) → List StepRow → List StepRow × List (Nat × String) × Nat
  | [], db => (db, [], 0)
  | (step, image_filename) :: rest, db =>
    if (fs (glbName hash_hex step)).isSome then
      let out := tdPhase1 pdf_hash hash_hex fs rest
        (update_glb_filename db pdf_hash step (glbName hash_hex step))
      (out.1, out.2.1, out.2.2 + 1)
    else
      let out := tdPhase1 pdf_hash hash_hex fs rest db
      (out.1, (step, "volume/" ++ image_filename) :: out.2.1, out.2.2)

/-- The `for (step, _), result in zip(tasks, task_results)` loop
(server.py lines 217-227), mirror image of `applyTTSResults` for glb. -/
def applyTDResults (pdf_hash : List Nat) :
    List ((Nat × String) × TaskOutcome) → List StepRow → List StepRow × Nat
  | [], db => (db, 0)
  | ((step, _), res) :: rest, db =>
    match res with
    | .error _ => applyTDResults pdf_hash rest db
    | .ok none => applyTDResults pdf_hash rest db
    | .ok (some fn) =>
      let out := applyTDResults pdf_hash rest (update_glb_filename db pdf_hash step fn)
      (out.1, out.2 + 1)

/-- Model of `generate_3d_models` (server.py lines 185-234).  `oracle step imagePath`
is the outcome of awaiting `image_to_model(imagePath, hash_hex, step)`
(tripo.py returns `None` — a falsy result — on its no-model paths). -/
def generate_3d_models (db : List StepRow) (fs : String → Option String)
    (oracle : Nat → String → TaskOutcome) (pdf_hash : List Nat) (hash_hex : String) :
    TDRun :=
  let rows := get_instructions_with_images db pdf_hash
  let p1 := tdPhase1 pdf_hash hash_hex fs rows db
  let results := p1.2.1.map (fun t => oracle t.1 t.2)
  let out := applyTDResults pdf_hash (p1.2.1.zip results) p1.1
  { db := out.1, tasks := p1.2.1, results := results,
    generated := out.2, skipped := p1.2.2 }

/-- Modelled from the spec: `update_mp3_filename_by_hash_hex` is imported and
called by the retrieval layer (server.py lines 24 and 564) but no definition
of it exists in database.py in this repository.  Per the spec (§4.4) the
accessor, after a synchronous narration call, updates the StepRecord for the
given hash-prefix and step so that its `mp3_filename` is set; modelled as the
hex-prefix analogue of `update_mp3_filename`. -/
def update_mp3_filename_by_hash_hex (db : List StepRow) (hash_hex : String) (step : Nat)
    (mp3_filename : String) : List StepRow :=
  db.map (fun r =>
    if hexMatches hash_hex r.hash ∧ r.step = step then
      { r with mp3_filename := some mp3_filename }
    else r)

/-- Model of `regenerate_single_tts` (server.py lines 154-182): re-read the step's
instruction file (a missing file raises), split off the description, and
await one `tts` call; on success return the produced mp3 filename. -/
def regenerate_single_tts (fs : String → Option String)
    (oracle : Nat → String → Except Unit String) (step : Nat)
    (instruction_filename : String) : Except Unit String :=
  match fs instruction_filename with
  | none => .error ()
  | some content => oracle step (descriptionOf (pyStrip content))

/-- Error taxonomy of the HTTP retrieval surface. -/
inductive HttpErr where
  | notFound
  | internal
deriving DecidableEq, Repr

/-- The observable result of one `get_mp3` request: the filename served back,
the table after the request, and the number of synchronous narration calls
performed while answering it. -/
structure Mp3Response where
  served : String
  db : List StepRow
  narrationCalls : Nat
deriving Repr

/-- Model of `get_mp3` (server.py lines 526-578).  Looks up the row for
(hash-prefix, step); when `mp3_filename` is falsy or the referenced file is
missing it synchronously regenerates the narration via
`regenerate_single_tts` and records it with `update_mp3_filename_by_hash_hex`
before serving; a raised narration error becomes a 500.  `oracle step
description` is the outcome of awaiting `tts(description, hash, step)`. -/
def get_mp3 (db : List StepRow) (fs : String → Option String)
    (oracle : Nat → String → Except Unit String) (hash_hex : String) (step : Nat) :
    Except HttpErr Mp3Response :=
  match get_file_info_by_hash_step db hash_hex step with
  | none => .error .notFound
  | some row =>
    let regen : Except HttpErr Mp3Response :=
      if row.instruction_filename = "" then .error .notFound
      else if (fs row.instruction_filename).isNone then .error .notFound
      else
        match regenerate_single_tts fs oracle step row.instruction_filename with
        | .error _ => .error .internal
        | .ok mp3_filename =>
          .ok { served := mp3_filename
                db := update_mp3_filename_by_hash_hex db hash_hex step mp3_filename
                narrationCalls := 1 }
    match row.mp3_filename with
    | none => regen
    | some fn =>
      if fn ≠ "" && (fs fn).isSome then .ok { served := fn, db := db, narrationCalls := 0 }
      else regen

/-- The `volume/` directory after a `store_gemini_results` run: the
instruction files it wrote and the image copies it made (a copy carries the
source file's content) overlay the previous directory contents. -/
def fsAfterStore (fs : String → Option String) (out : StoreOutcome) :
    String → Option String :=
  fun n =>
    match (out.written ++
        out.copied.filterMap (fun p => (fs p.1).map (fun c => (p.2, c)))).lookup n with
    | some c => some c
    | none => fs n

/-- The extraction and classification outputs the pipeline obtains from its
external collaborators (preprocessing.py / gemini_service.py). -/
structure PipelineEnv where
  pdf_filename : String
  image_filenames : List String
  image_positions : List (Option Position)
  gemini_matches : List ClassifierMatch

/-- The observable result of one `process_pdf_pipeline` run: how many
classification calls were made, the computed document hash, the materializer
outcome, and the table after the run. -/
structure PipelineRun where
  classification_calls : Nat
  pdf_hash : List Nat
  store : StoreOutcome
  db : List StepRow

/-- Model of `process_pdf_pipeline` (server.py lines 237-321): check the PDF exists,
extract, classify (exactly one classification call, before the hash is even
computed), hash, materialize, then run the requested derivation batches.
The two batches run concurrently in the source (`asyncio.gather`); they
update disjoint ledger fields (`mp3_filename` vs `glb_filename`) and check
disjoint artifact names, so they are modelled as sequential composition. -/
def process_pdf_pipeline (H : List Nat → List Nat)
    (fsBytes : String → Option (List Nat)) (fs : String → Option String)
    (env : PipelineEnv) (db : List StepRow) (generate_tts generate_3d : Bool)
    (ttsOr tdOr : Nat → String → TaskOutcome) : Except Unit PipelineRun :=
  let pdf_path := "volume/" ++ env.pdf_filename
  if (fsBytes pdf_path).isNone then .error ()
  else
    let classification_calls := 1
    let pdf_hash := calculate_pdf_hash H fsBytes pdf_path
    let hash_hex := hashHexOf pdf_hash
    match store_gemini_results db pdf_hash env.pdf_filename env.image_filenames
        env.gemini_matches (some env.image_positions) (fun n => (fs n).isSome) with
    | .error e => .error e
    | .ok out =>
      let db1 := db ++ out.inserted
      let fs1 := fsAfterStore fs out
      match (if generate_tts then
          (generate_tts_files db1 fs1 ttsOr pdf_hash hash_hex).map (fun r => r.db)
        else .ok db1) with
      | .error e => .error e
      | .ok db2 =>
        let db3 :=
          if generate_3d then (generate_3d_models db2 fs1 tdOr pdf_hash hash_hex).db
          else db2
        .ok ⟨classification_calls, pdf_hash, out, db3⟩

/-- The relation between an instructional classifier entry and the ledger row
the materializer inserts for it: the row's image artifact is the hash-step
rename of the image the entry's `image_index` points at, its instruction file
is the hash-step text file, and its derived-asset fields start unset. -/
def pairedRow (hh : String) (imgs : List String) (m : ClassifierMatch) (r : StepRow) :
    Prop :=
  (imgs[m.image_index]?).map
      (fun src => hh ++ "-" ++ toString r.step ++ pathSuffix src) = some r.image_filename ∧
  r.instruction_filename = hh ++ "-" ++ toString r.step ++ ".txt" ∧
  r.mp3_filename = none ∧ r.glb_filename = none

/-- All row fields except `mp3_filename` (the only field `update_mp3_filename`
can change). -/
def exceptMp3 (r : StepRow) :
    List Nat × String × Nat × String × Option String × String × Option Int × Option Rat :=
  (r.hash, r.pdf_filename, r.step, r.image_filename, r.glb_filename,
   r.instruction_filename, r.page_number, r.y_percentage)

/-- All row fields except `glb_filename` (the only field `update_glb_filename`
can change). -/
def exceptGlb (r : StepRow) :
    List Nat × String × Nat × String × Option String × String × Option Int × Option Rat :=
  (r.hash, r.pdf_filename, r.step, r.image_filename, r.mp3_filename,
   r.instruction_filename, r.page_number, r.y_percentage)

/-- The `mp3_filename` values of the ledger rows for one (hash, step) key. -/
def mp3At (db : List StepRow) (hb : List Nat) (s : Nat) : List (Option String) :=
  (db.filter (fun r => r.hash = hb ∧ r.step = s)).map (fun r => r.mp3_filename)

/-- The `glb_filename` values of the ledger rows for one (hash, step) key. -/
def glbAt (db : List StepRow) (hb : List Nat) (s : Nat) : List (Option String) :=
  (db.filter (fun r => r.hash = hb ∧ r.step = s)).map (fun r => r.glb_filename)

/-- The volume directory after a derivation batch whose external calls wrote
the given artifact files (both wrappers write their deterministically named
output file exactly when the call succeeds), with nothing deleted. -/
def fsWithFiles (fs : String → Option String) (names : List String) :
    String → Option String :=
  fun n => if n ∈ names then some "" else fs n

/-! Lemmas about the content addresser. -/

theorem chunks4096_flatten (l : List Nat) : (chunks4096 l).flatten = l := by
  induction l using chunks4096.induct with
  | case1 => rw [chunks4096]; simp
  | case2 l h ih => rw [chunks4096]; simp [h, ih]

/-- Feeding the 4096-byte blocks of a byte string to the digest accumulator
is the same as digesting the whole byte string. -/
theorem calculate_pdf_hash_eq (H : List Nat → List Nat)
    (fsBytes : String → Option (List Nat)) (p : String) (c : List Nat)
    (h : fsBytes p = some c) : calculate_pdf_hash H fsBytes p = H c := by
  simp [calculate_pdf_hash, h, chunks4096_flatten]

/-! Lemmas about the step materializer. -/

/-- Steps of the rows inserted by the materializer loop: exactly the
contiguous range starting at the initial step counter, one per
instructional entry. -/
theorem storeLoop_steps (hb : List Nat) (hh pf : String) (imgs : List String)
    (pos : Option (List (Option Position))) (fs : String → Bool) :
    ∀ (ms : List ClassifierMatch) (n : Nat) rows cps wrs,
      storeLoop hb hh pf imgs pos fs ms n = .ok (rows, cps, wrs) →
      rows.map (fun r => r.step) =
        List.range' n (ms.filter (fun m => m.is_instruction)).length := by
  intro ms
  induction ms with
  | nil =>
    intro n rows cps wrs h
    simp [storeLoop] at h
    simp [h.1]
  | cons m ms ih =>
    intro n rows cps wrs h
    by_cases hm : m.is_instruction
    · rw [storeLoop] at h
      simp only [hm, Bool.not_true, Bool.false_eq_true, if_neg, ite_false] at h
      cases hg : imgs[m.image_index]? with
      | none => simp [hg] at h
      | some old =>
        simp only [hg] at h
        cases hr : storeLoop hb hh pf imgs pos fs ms (n + 1) with
        | error e => simp [hr] at h
        | ok triple =>
          obtain ⟨rows', cps', wrs'⟩ := triple
          simp only [hr, Except.ok.injEq, Prod.mk.injEq] at h
          obtain ⟨h1, h2, h3⟩ := h
          subst h1
          rw [List.filter_cons_of_pos (by simp [hm]), List.length_cons, List.range'_succ,
            List.map_cons]
          exact congrArg (n :: ·) (ih (n + 1) rows' cps' wrs' hr)
    · rw [storeLoop] at h
      simp only [hm] at h
      rw [List.filter_cons_of_neg (by simp [hm])]
      exact ih n rows cps wrs h

/-- The inserted rows are in positional correspondence with the instructional
classifier entries, in classifier output order. -/
theorem storeLoop_pairs (hb : List Nat) (hh pf : String) (imgs : List String)
    (pos : Option (List (Option Position))) (fs : String → Bool) :
    ∀ (ms : List ClassifierMatch) (n : Nat) rows cps wrs,
      storeLoop hb hh pf imgs pos fs ms n = .ok (rows, cps, wrs) →
      List.Forall₂ (pairedRow hh imgs) (ms.filter (fun m => m.is_instruction)) rows := by
  intro ms
  induction ms with
  | nil =>
    intro n rows cps wrs h
    simp [storeLoop] at h
    simp [h.1]
  | cons m ms ih =>
    intro n rows cps wrs h
    by_cases hm : m.is_instruction
    · rw [storeLoop] at h
      simp only [hm, Bool.not_true, Bool.false_eq_true, if_neg, ite_false] at h
      cases hg : imgs[m.image_index]? with
      | none => simp [hg] at h
      | some old =>
        simp only [hg] at h
        cases hr : storeLoop hb hh pf imgs pos fs ms (n + 1) with
        | error e => simp [hr] at h
        | ok triple =>
          obtain ⟨rows', cps', wrs'⟩ := triple
          simp only [hr, Except.ok.injEq, Prod.mk.injEq] at h
          obtain ⟨h1, h2, h3⟩ := h
          subst h1
          rw [List.filter_cons_of_pos (by simp [hm])]
          exact List.Forall₂.cons (by simp [pairedRow, hg]) (ih (n + 1) rows' cps' wrs' hr)
    · rw [storeLoop] at h
      simp only [hm] at h
      rw [List.filter_cons_of_neg (by simp [hm])]
      exact ih n rows cps wrs h

/-- The image copies performed are exactly one per instructional entry whose
source image exists, from that source to the paired row's image artifact. -/
theorem storeLoop_copies (hb : List Nat) (hh pf : String) (imgs : List String)
    (pos : Option (List (Option Position))) (fs : String → Bool) :
    ∀ (ms : List ClassifierMatch) (n : Nat) rows cps wrs,
      storeLoop hb hh pf imgs pos fs ms n = .ok (rows, cps, wrs) →
      cps = ((ms.filter (fun m => m.is_instruction)).zip rows).filterMap
        (fun p => (imgs[p.1.image_index]?).bind
          (fun src => if fs src then some (src, p.2.image_filename) else none)) := by
  intro ms
  induction ms with
  | nil =>
    intro n rows cps wrs h
    simp [storeLoop] at h
    simp [h.2.1]
  | cons m ms ih =>
    intro n rows cps wrs h
    by_cases hm : m.is_instruction
    · rw [storeLoop] at h
      simp only [hm, Bool.not_true, Bool.false_eq_true, if_neg, ite_false] at h
      cases hg : imgs[m.image_index]? with
      | none => simp [hg] at h
      | some old =>
        simp only [hg] at h
        cases hr : storeLoop hb hh pf imgs pos fs ms (n + 1) with
        | error e => simp [hr] at h
        | ok triple =>
          obtain ⟨rows', cps', wrs'⟩ := triple
          simp only [hr, Except.ok.injEq, Prod.mk.injEq] at h
          obtain ⟨h1, h2, h3⟩ := h
          subst h1 h2
          rw [List.filter_cons_of_pos (by simp [hm])]
          rw [List.zip_cons_cons, List.filterMap_cons]
          by_cases hf : fs old
          · simp [hg, hf, ih (n + 1) rows' cps' wrs' hr]
          · simp [hg, hf, ih (n + 1) rows' cps' wrs' hr]
    · rw [storeLoop] at h
      simp only [hm] at h
      rw [List.filter_cons_of_neg (by simp [hm])]
      exact ih n rows cps wrs h

/-- When every instructional entry's index is in range, the materializer loop
completes without an indexing error. -/
theorem storeLoop_ok_of_valid (hb : List Nat) (hh pf : String) (imgs : List String)
    (pos : Option (List (Option Position))) (fs : String → Bool) :
    ∀ (ms : List ClassifierMatch) (n : Nat),
      (∀ m ∈ ms, m.is_instruction = true → m.image_index < imgs.length) →
      ∃ t, storeLoop hb hh pf imgs pos fs ms n = .ok t := by
  intro ms
  induction ms with
  | nil => intro n _; exact ⟨([], [], []), rfl⟩
  | cons m ms ih =>
    intro n hv
    rcases hE : storeLoop hb hh pf imgs pos fs (m :: ms) n with e | t
    · exfalso
      by_cases hm : m.is_instruction
      · have hlt : m.image_index < imgs.length := hv m (by simp) hm
        obtain ⟨⟨rows, cps, wrs⟩, ht⟩ := ih (n + 1) (fun x hx => hv x (by simp [hx]))
        rw [storeLoop] at hE
        simp only [hm, Bool.not_true, Bool.false_eq_true, if_neg, ite_false] at hE
        rw [List.getElem?_eq_getElem hlt] at hE
        rw [ht] at hE
        simp at hE
      · obtain ⟨t, ht⟩ := ih n (fun x hx => hv x (by simp [hx]))
        rw [storeLoop] at hE
        simp only [hm] at hE
        rw [ht] at hE
        simp at hE
    · exact ⟨t, rfl⟩

/-- Conversely, a completed materializer loop had every instructional entry's
index in range. -/
theorem storeLoop_valid_of_ok (hb : List Nat) (hh pf : String) (imgs : List String)
    (pos : Option (List (Option Position))) (fs : String → Bool) :
    ∀ (ms : List ClassifierMatch) (n : Nat) t,
      storeLoop hb hh pf imgs pos fs ms n = .ok t →
      ∀ m ∈ ms, m.is_instruction = true → m.image_index < imgs.length := by
  intro ms
  induction ms with
  | nil => intro n t _ m hm; simp at hm
  | cons m ms ih =>
    intro n t h x hx hxi
    by_cases hm : m.is_instruction
    · rw [storeLoop] at h
      simp only [hm, Bool.not_true, Bool.false_eq_true, if_neg, ite_false] at h
      cases hg : imgs[m.image_index]? with
      | none => simp [hg] at h
      | some old =>
        simp only [hg] at h
        cases hr : storeLoop hb hh pf imgs pos fs ms (n + 1) with
        | error e => simp [hr] at h
        | ok triple =>
          rcases List.mem_cons.mp hx with hx | hx
          · subst hx
            exact (List.getElem?_eq_some.mp hg).1
          · exact ih (n + 1) triple hr x hx hxi
    · rw [storeLoop] at h
      simp only [hm] at h
      rcases List.mem_cons.mp hx with hx | hx
      · subst hx; exact absurd hxi hm
      · exact ih n t h x hx hxi

/-- On a fresh document (nonempty hash, no existing rows) the materializer is
the committed loop result. -/
theorem store_fresh_eq (db : List StepRow) (hb : List Nat) (pf : String)
    (imgs : List String) (ms : List ClassifierMatch)
    (pos : Option (List (Option Position))) (fsEx : String → Bool)
    (hne : hb ≠ []) (hfresh : db.filter (fun r => r.hash = hb) = []) :
    store_gemini_results db hb pf imgs ms pos fsEx =
      (storeLoop hb (hashHexOf hb) pf imgs pos fsEx ms 0).map
        (fun t => ⟨hb, t.1, t.2.1, t.2.2⟩) := by
  unfold store_gemini_results
  rw [if_neg hne, hfresh]
  simp only [List.length_nil, gt_iff_lt, Nat.lt_irrefl, if_false, ite_false]
  cases h : storeLoop hb (hashHexOf hb) pf imgs pos fsEx ms 0 with
  | error e => simp [h, Except.map]
  | ok t => obtain ⟨a, b, c⟩ := t; simp [h, Except.map]

/-- A document whose hash already has rows (or whose hash is the empty
sentinel) is stored as a no-op: nothing inserted, copied or written. -/
theorem store_no_op_on_existing (db : List StepRow) (hb : List Nat) (pf : String)
    (imgs : List String) (ms : List ClassifierMatch)
    (pos : Option (List (Option Position))) (fsEx : String → Bool)
    (hex : db.filter (fun r => r.hash = hb) ≠ []) :
    ∃ out, store_gemini_results db hb pf imgs ms pos fsEx = .ok out ∧
      out.inserted = [] ∧ out.copied = [] ∧ out.written = [] := by
  unfold store_gemini_results
  by_cases hne : hb = []
  · exact ⟨⟨[], [], [], []⟩, by rw [if_pos hne], rfl, rfl, rfl⟩
  · rw [if_neg hne]
    have hlen : 0 < (db.filter (fun r => r.hash = hb)).length :=
      List.length_pos.mpr hex
    refine ⟨⟨hb, [], [], []⟩, ?_, rfl, rfl, rfl⟩
    simp only [gt_iff_lt, hlen, if_true, ite_true]

/-- C1: after the materializer runs on a fresh document hash, the stored step
numbers are exactly `{0, ..., K-1}` where K is the number of classifier
entries with `is_instruction = true`, and the i-th stored row is paired (via
`image_index`) with the image of the i-th instructional entry in classifier
output order; non-instructional entries contribute no gap and no record. -/
theorem C1_steps_contiguous_and_paired
    (db : List StepRow) (hb : List Nat) (pf : String) (imgs : List String)
    (ms : List ClassifierMatch) (pos : Option (List (Option Position)))
    (fsEx : String → Bool) (out : StoreOutcome)
    (hne : hb ≠ []) (hfresh : db.filter (fun r => r.hash = hb) = [])
    (hok : store_gemini_results db hb pf imgs ms pos fsEx = .ok out) :
    out.inserted.map (fun r => r.step) =
      List.range (ms.filter (fun m => m.is_instruction)).length ∧
    List.Forall₂ (pairedRow (hashHexOf hb) imgs)
      (ms.filter (fun m => m.is_instruction)) out.inserted := by
  rw [store_fresh_eq db hb pf imgs ms pos fsEx hne hfresh] at hok
  cases hl : storeLoop hb (hashHexOf hb) pf imgs pos fsEx ms 0 with
  | error e => rw [hl] at hok; simp [Except.map] at hok
  | ok t =>
    obtain ⟨rows, cps, wrs⟩ := t
    rw [hl] at hok
    simp only [Except.map, Except.ok.injEq] at hok
    subst hok
    constructor
    · rw [List.range_eq_range']
      exact storeLoop_steps hb (hashHexOf hb) pf imgs pos fsEx ms 0 rows cps wrs hl
    · exact storeLoop_pairs hb (hashHexOf hb) pf imgs pos fsEx ms 0 rows cps wrs hl

/-- Witness for C1: the spec §8 example — five classifier entries with
indices 0, 2, 4 instructional produce steps 0, 1, 2 paired with images
0, 2, 4. -/
theorem C1_witness :
    (List.map (fun r => r.step)
        ([⟨[0], "doc.pdf", 0, "00-0.png", none, none, "00-0.txt", none, none⟩,
          ⟨[0], "doc.pdf", 1, "00-1.jpg", none, none, "00-1.txt", none, none⟩,
          ⟨[0], "doc.pdf", 2, "00-2.png", none, none, "00-2.txt", none, none⟩] :
          List StepRow) =
      List.range (List.filter (fun m => m.is_instruction)
        ([⟨0, true, "T0", "D0"⟩, ⟨1, false, "N/A", "N/A"⟩, ⟨2, true, "T2", "D2"⟩,
          ⟨3, false, "N/A", "N/A"⟩, ⟨4, true, "T4", "D4"⟩] :
          List ClassifierMatch)).length) ∧
    List.Forall₂
      (pairedRow (hashHexOf [0]) ["i0.png", "i1.png", "i2.jpg", "i3.png", "i4.png"])
      (List.filter (fun m => m.is_instruction)
        ([⟨0, true, "T0", "D0"⟩, ⟨1, false, "N/A", "N/A"⟩, ⟨2, true, "T2", "D2"⟩,
          ⟨3, false, "N/A", "N/A"⟩, ⟨4, true, "T4", "D4"⟩] :
          List ClassifierMatch))
      ([⟨[0], "doc.pdf", 0, "00-0.png", none, none, "00-0.txt", none, none⟩,
        ⟨[0], "doc.pdf", 1, "00-1.jpg", none, none, "00-1.txt", none, none⟩,
        ⟨[0], "doc.pdf", 2, "00-2.png", none, none, "00-2.txt", none, none⟩] :
        List StepRow) :=
  C1_steps_contiguous_and_paired [] [0] "doc.pdf"
    ["i0.png", "i1.png", "i2.jpg", "i3.png", "i4.png"]
    [⟨0, true, "T0", "D0"⟩, ⟨1, false, "N/A", "N/A"⟩, ⟨2, true, "T2", "D2"⟩,
     ⟨3, false, "N/A", "N/A"⟩, ⟨4, true, "T4", "D4"⟩]
    none (fun _ => true)
    ⟨[0],
     [⟨[0], "doc.pdf", 0, "00-0.png", none, none, "00-0.txt", none, none⟩,
      ⟨[0], "doc.pdf", 1, "00-1.jpg", none, none, "00-1.txt", none, none⟩,
      ⟨[0], "doc.pdf", 2, "00-2.png", none, none, "00-2.txt", none, none⟩],
     [("i0.png", "00-0.png"), ("i2.jpg", "00-1.jpg"), ("i4.png", "00-2.png")],
     [("00-0.txt", "T0\n\nD0"), ("00-1.txt", "T2\n\nD2"), ("00-2.txt", "T4\n\nD4")]⟩
    (by decide) rfl (by rfl)

/-- C10: on a fresh document hash, the materializer completes exactly when
every instructional entry's `image_index` is a valid index into the image
filename list; when some instructional entry is out of bounds the unguarded
`image_filenames[image_index]` raises and the entire ingestion batch aborts
(no outcome is committed), rather than skipping only that entry. -/
theorem C10_unguarded_indexing
    (db : List StepRow) (hb : List Nat) (pf : String) (imgs : List String)
    (ms : List ClassifierMatch) (pos : Option (List (Option Position)))
    (fsEx : String → Bool)
    (hne : hb ≠ []) (hfresh : db.filter (fun r => r.hash = hb) = []) :
    ((∃ out, store_gemini_results db hb pf imgs ms pos fsEx = .ok out) ↔
      (∀ m ∈ ms, m.is_instruction = true → m.image_index < imgs.length)) ∧
    ((¬ ∀ m ∈ ms, m.is_instruction = true → m.image_index < imgs.length) →
      store_gemini_results db hb pf imgs ms pos fsEx = .error ()) := by
  rw [store_fresh_eq db hb pf imgs ms pos fsEx hne hfresh]
  have hiff : (∃ out, (storeLoop hb (hashHexOf hb) pf imgs pos fsEx ms 0).map
        (fun t => (⟨hb, t.1, t.2.1, t.2.2⟩ : StoreOutcome)) = .ok out) ↔
      (∀ m ∈ ms, m.is_instruction = true → m.image_index < imgs.length) := by
    constructor
    · rintro ⟨out, hout⟩
      cases hl : storeLoop hb (hashHexOf hb) pf imgs pos fsEx ms 0 with
      | error e => rw [hl] at hout; simp [Except.map] at hout
      | ok t => exact storeLoop_valid_of_ok hb (hashHexOf hb) pf imgs pos fsEx ms 0 t hl
    · intro hv
      obtain ⟨t, ht⟩ := storeLoop_ok_of_valid hb (hashHexOf hb) pf imgs pos fsEx ms 0 hv
      exact ⟨⟨hb, t.1, t.2.1, t.2.2⟩, by rw [ht]; rfl⟩
  refine ⟨hiff, fun hnv => ?_⟩
  cases hl : storeLoop hb (hashHexOf hb) pf imgs pos fsEx ms 0 with
  | error e => simp [Except.map]
  | ok t =>
    exact absurd (storeLoop_valid_of_ok hb (hashHexOf hb) pf imgs pos fsEx ms 0 t hl) hnv

/-- Witness for C10 at a concrete in-bounds input. -/
theorem C10_witness :
    ((∃ out, store_gemini_results [] [2] "w.pdf" ["a.png"]
        [⟨0, true, "T", "D"⟩] none (fun _ => true) = .ok out) ↔
      (∀ m ∈ ([⟨0, true, "T", "D"⟩] : List ClassifierMatch),
        m.is_instruction = true → m.image_index < (["a.png"] : List String).length)) ∧
    ((¬ ∀ m ∈ ([⟨0, true, "T", "D"⟩] : List ClassifierMatch),
        m.is_instruction = true → m.image_index < (["a.png"] : List String).length) →
      store_gemini_results [] [2] "w.pdf" ["a.png"]
        [⟨0, true, "T", "D"⟩] none (fun _ => true) = .error ()) :=
  C10_unguarded_indexing [] [2] "w.pdf" ["a.png"] [⟨0, true, "T", "D"⟩] none
    (fun _ => true) (by decide) rfl

/-- Counterexample for C5 as stated: one instructional entry whose source
image is missing from the volume (the file-existence view is constantly
false) still gets a ledger row (one row inserted, zero copies) — it is not
"skipped ... leaving that instruction unrecorded". -/
theorem C5_counterexample :
    (store_gemini_results [] [1] "doc.pdf" ["a.png"] [⟨0, true, "T", "D"⟩] none
        (fun _ => false)).map (fun o => (o.inserted.length, o.copied)) =
      .ok (1, []) ∧ (1 : Nat) ≠ 0 :=
  ⟨rfl, by decide⟩

/-- C5 (amended): a missing source image for a classified instructional index
does not abort the remaining steps, but it is not skipped either — the image
copy is the only thing omitted; the instruction still gets its ledger row
(one row per instructional entry, regardless of which source images exist),
and copies are performed exactly for the entries whose source image exists. -/
theorem C5_missing_image_row_still_inserted
    (db : List StepRow) (hb : List Nat) (pf : String) (imgs : List String)
    (ms : List ClassifierMatch) (pos : Option (List (Option Position)))
    (fsEx : String → Bool) (out : StoreOutcome)
    (hne : hb ≠ []) (hfresh : db.filter (fun r => r.hash = hb) = [])
    (hok : store_gemini_results db hb pf imgs ms pos fsEx = .ok out) :
    out.inserted.length = (ms.filter (fun m => m.is_instruction)).length ∧
    out.copied = ((ms.filter (fun m => m.is_instruction)).zip out.inserted).filterMap
      (fun p => (imgs[p.1.image_index]?).bind
        (fun src => if fsEx src then some (src, p.2.image_filename) else none)) := by
  rw [store_fresh_eq db hb pf imgs ms pos fsEx hne hfresh] at hok
  cases hl : storeLoop hb (hashHexOf hb) pf imgs pos fsEx ms 0 with
  | error e => rw [hl] at hok; simp [Except.map] at hok
  | ok t =>
    obtain ⟨rows, cps, wrs⟩ := t
    rw [hl] at hok
    simp only [Except.map, Except.ok.injEq] at hok
    subst hok
    constructor
    · have hs := storeLoop_steps hb (hashHexOf hb) pf imgs pos fsEx ms 0 rows cps wrs hl
      have := congrArg List.length hs
      simpa using this
    · exact storeLoop_copies hb (hashHexOf hb) pf imgs pos fsEx ms 0 rows cps wrs hl

/-- Witness for C5's amended statement: the counterexample input, where the
missing-image instruction still yields its row and no copy happens. -/
theorem C5_witness :
    (List.length
        ([⟨[1], "doc.pdf", 0, "01-0.png", none, none, "01-0.txt", none, none⟩] :
          List StepRow) =
      (List.filter (fun m => m.is_instruction)
        ([⟨0, true, "T", "D"⟩] : List ClassifierMatch)).length) ∧
    ([] : List (String × String)) =
      ((List.filter (fun m => m.is_instruction)
          ([⟨0, true, "T", "D"⟩] : List ClassifierMatch)).zip
        ([⟨[1], "doc.pdf", 0, "01-0.png", none, none, "01-0.txt", none, none⟩] :
          List StepRow)).filterMap
        (fun p => ((["a.png"] : List String)[p.1.image_index]?).bind
          (fun src => if (fun _ => false) src then some (src, p.2.image_filename)
            else none)) :=
  C5_missing_image_row_still_inserted [] [1] "doc.pdf" ["a.png"]
    [⟨0, true, "T", "D"⟩] none (fun _ => false)
    ⟨[1], [⟨[1], "doc.pdf", 0, "01-0.png", none, none, "01-0.txt", none, none⟩],
     [], [("01-0.txt", "T\n\nD")]⟩
    (by decide) rfl (by rfl)

/-- C9: the document identity is a function of the byte content alone — two
reads that yield byte-identical content produce the same identity, whatever
the file names (and hence upload times) are. -/
theorem C9_identity_content_only (H : List Nat → List Nat)
    (fs1 fs2 : String → Option (List Nat)) (p1 p2 : String) (c : List Nat)
    (h1 : fs1 p1 = some c) (h2 : fs2 p2 = some c) :
    calculate_pdf_hash H fs1 p1 = calculate_pdf_hash H fs2 p2 := by
  rw [calculate_pdf_hash_eq H fs1 p1 c h1, calculate_pdf_hash_eq H fs2 p2 c h2]

/-- Witness for C9: the same three bytes under two different file names. -/
theorem C9_witness :
    calculate_pdf_hash (fun l => l) (fun _ => some [1, 2, 3]) "a.pdf" =
      calculate_pdf_hash (fun l => l)
        (fun n => if n = "b.pdf" then some [1, 2, 3] else none) "b.pdf" :=
  C9_identity_content_only (fun l => l) (fun _ => some [1, 2, 3])
    (fun n => if n = "b.pdf" then some [1, 2, 3] else none) "a.pdf" "b.pdf"
    [1, 2, 3] rfl (by decide)

/-- C8: an unreadable source file gives the sentinel empty identity, and the
materializer treats the empty identity as a hard abort — it returns the empty
value immediately, inserting no row, copying no image and writing no file. -/
theorem C8_empty_identity_hard_abort (H : List Nat → List Nat)
    (fsBytes : String → Option (List Nat)) (file_path : String)
    (db : List StepRow) (pf : String) (imgs : List String)
    (ms : List ClassifierMatch) (pos : Option (List (Option Position)))
    (fsEx : String → Bool) (h : fsBytes file_path = none) :
    calculate_pdf_hash H fsBytes file_path = [] ∧
    store_gemini_results db (calculate_pdf_hash H fsBytes file_path) pf imgs ms pos
      fsEx = .ok ⟨[], [], [], []⟩ := by
  have hc : calculate_pdf_hash H fsBytes file_path = [] := by
    simp [calculate_pdf_hash, h]
  exact ⟨hc, by rw [hc]; simp [store_gemini_results]⟩

/-- Witness for C8: a file system with no files at all. -/
theorem C8_witness :
    calculate_pdf_hash (fun l => l) (fun _ => none) "gone.pdf" = [] ∧
    store_gemini_results [] (calculate_pdf_hash (fun l => l) (fun _ => none) "gone.pdf")
      "gone.pdf" ["a.png"] [⟨0, true, "T", "D"⟩] none (fun _ => true) =
      .ok ⟨[], [], [], []⟩ :=
  C8_empty_identity_hard_abort (fun l => l) (fun _ => none) "gone.pdf" [] "gone.pdf"
    ["a.png"] [⟨0, true, "T", "D"⟩] none (fun _ => true) rfl

/-! Lemmas about the derivation orchestrator. -/

theorem update_mp3_exceptMp3 (db : List StepRow) (hb : List Nat) (s : Nat) (fn : String) :
    (update_mp3_filename db hb s fn).map exceptMp3 = db.map exceptMp3 := by
  induction db with
  | nil => rfl
  | cons r rs ih =>
    show List.map exceptMp3 (List.map _ (r :: rs)) = _
    rw [List.map_cons, List.map_cons, List.map_cons]
    refine congrArg₂ List.cons ?_ ih
    by_cases hc : (r.hash = hb ∧ r.step = s)
    · rw [if_pos hc]
      rfl
    · rw [if_neg hc]

theorem update_glb_exceptGlb (db : List StepRow) (hb : List Nat) (s : Nat) (fn : String) :
    (update_glb_filename db hb s fn).map exceptGlb = db.map exceptGlb := by
  induction db with
  | nil => rfl
  | cons r rs ih =>
    show List.map exceptGlb (List.map _ (r :: rs)) = _
    rw [List.map_cons, List.map_cons, List.map_cons]
    refine congrArg₂ List.cons ?_ ih
    by_cases hc : (r.hash = hb ∧ r.step = s)
    · rw [if_pos hc]
      rfl
    · rw [if_neg hc]

theorem get_ibh_cons (r : StepRow) (rs : List StepRow) (h : List Nat) :
    get_instructions_by_hash (r :: rs) h =
      if r.hash = h then (r.step, r.instruction_filename) :: get_instructions_by_hash rs h
      else get_instructions_by_hash rs h := by
  by_cases hc : r.hash = h <;> simp [get_instructions_by_hash, List.filter_cons, hc]

theorem get_iwi_cons (r : StepRow) (rs : List StepRow) (h : List Nat) :
    get_instructions_with_images (r :: rs) h =
      if r.hash = h then (r.step, r.image_filename) :: get_instructions_with_images rs h
      else get_instructions_with_images rs h := by
  by_cases hc : r.hash = h <;> simp [get_instructions_with_images, List.filter_cons, hc]

theorem mp3At_cons (r : StepRow) (rs : List StepRow) (hb : List Nat) (s : Nat) :
    mp3At (r :: rs) hb s =
      if r.hash = hb ∧ r.step = s then r.mp3_filename :: mp3At rs hb s
      else mp3At rs hb s := by
  by_cases hc : (r.hash = hb ∧ r.step = s) <;> simp [mp3At, List.filter_cons, hc]

theorem glbAt_cons (r : StepRow) (rs : List StepRow) (hb : List Nat) (s : Nat) :
    glbAt (r :: rs) hb s =
      if r.hash = hb ∧ r.step = s then r.glb_filename :: glbAt rs hb s
      else glbAt rs hb s := by
  by_cases hc : (r.hash = hb ∧ r.step = s) <;> simp [glbAt, List.filter_cons, hc]

theorem get_ibh_congr (db1 db2 : List StepRow)
    (he : db1.map exceptMp3 = db2.map exceptMp3) (h : List Nat) :
    get_instructions_by_hash db1 h = get_instructions_by_hash db2 h := by
  induction db1 generalizing db2 with
  | nil => cases db2 with
    | nil => rfl
    | cons r2 rs2 => simp at he
  | cons r rs ih =>
    cases db2 with
    | nil => simp at he
    | cons r2 rs2 =>
      simp only [List.map_cons, List.cons.injEq] at he
      obtain ⟨h1, h2⟩ := he
      simp only [exceptMp3, Prod.mk.injEq] at h1
      obtain ⟨e1, e2, e3, e4, e5, e6, e7, e8⟩ := h1
      rw [get_ibh_cons, get_ibh_cons, e1, e3, e6, ih rs2 h2]

theorem get_iwi_congr (db1 db2 : List StepRow)
    (he : db1.map exceptGlb = db2.map exceptGlb) (h : List Nat) :
    get_instructions_with_images db1 h = get_instructions_with_images db2 h := by
  induction db1 generalizing db2 with
  | nil => cases db2 with
    | nil => rfl
    | cons r2 rs2 => simp at he
  | cons r rs ih =>
    cases db2 with
    | nil => simp at he
    | cons r2 rs2 =>
      simp only [List.map_cons, List.cons.injEq] at he
      obtain ⟨h1, h2⟩ := he
      simp only [exceptGlb, Prod.mk.injEq] at h1
      obtain ⟨e1, e2, e3, e4, e5, e6, e7, e8⟩ := h1
      rw [get_iwi_cons, get_iwi_cons, e1, e3, e4, ih rs2 h2]

theorem mp3At_congr (db1 db2 : List StepRow)
    (he : db1.map exceptGlb = db2.map exceptGlb) (hb : List Nat) (s : Nat) :
    mp3At db1 hb s = mp3At db2 hb s := by
  induction db1 generalizing db2 with
  | nil => cases db2 with
    | nil => rfl
    | cons r2 rs2 => simp at he
  | cons r rs ih =>
    cases db2 with
    | nil => simp at he
    | cons r2 rs2 =>
      simp only [List.map_cons, List.cons.injEq] at he
      obtain ⟨h1, h2⟩ := he
      simp only [exceptGlb, Prod.mk.injEq] at h1
      obtain ⟨e1, e2, e3, e4, e5, e6, e7, e8⟩ := h1
      rw [mp3At_cons, mp3At_cons, e1, e3, e5, ih rs2 h2]

theorem ttsPhase1_exceptMp3 (hb : List Nat) (hh : String) (fs : String → Option String) :
    ∀ (rows : List (Nat × String)) (db db1 : List StepRow) (tasks : List (Nat × String))
      (sk : Nat), ttsPhase1 hb hh fs rows db = .ok (db1, tasks, sk) →
      db1.map exceptMp3 = db.map exceptMp3 := by
  intro rows
  induction rows with
  | nil =>
    intro db db1 tasks sk h
    simp only [ttsPhase1, Except.ok.injEq, Prod.mk.injEq] at h
    rw [← h.1]
  | cons p rest ih =>
    obtain ⟨s, f⟩ := p
    intro db db1 tasks sk h
    rw [ttsPhase1] at h
    by_cases hex : (fs (mp3Name hh s)).isSome
    · rw [if_pos hex] at h
      cases hr : ttsPhase1 hb hh fs rest (update_mp3_filename db hb s (mp3Name hh s)) with
      | error e => rw [hr] at h; exact absurd h (by simp)
      | ok t =>
        obtain ⟨db2, tasks2, sk2⟩ := t
        rw [hr] at h
        simp only [Except.ok.injEq, Prod.mk.injEq] at h
        rw [← h.1, ih _ _ _ _ hr, update_mp3_exceptMp3]
    · rw [if_neg hex] at h
      cases hc : fs f with
      | none => rw [hc] at h; exact absurd h (by simp)
      | some content =>
        rw [hc] at h
        cases hr : ttsPhase1 hb hh fs rest db with
        | error e => rw [hr] at h; exact absurd h (by simp)
        | ok t =>
          obtain ⟨db2, tasks2, sk2⟩ := t
          rw [hr] at h
          simp only [Except.ok.injEq, Prod.mk.injEq] at h
          rw [← h.1, ih _ _ _ _ hr]

theorem applyTTS_exceptMp3 (hb : List Nat) :
    ∀ (prs : List ((Nat × String) × TaskOutcome)) (db : List StepRow),
      ((applyTTSResults hb prs db).1).map exceptMp3 = db.map exceptMp3 := by
  intro prs
  induction prs with
  | nil => intro db; rfl
  | cons p rest ih =>
    obtain ⟨⟨s, d⟩, res⟩ := p
    intro db
    cases res with
    | error e => exact ih db
    | ok v =>
      cases v with
      | none => exact ih db
      | some fn =>
        show ((applyTTSResults hb rest (update_mp3_filename db hb s fn)).1).map exceptMp3 = _
        rw [ih, update_mp3_exceptMp3]

theorem generate_tts_exceptMp3 (db : List StepRow) (fs : String → Option String)
    (oracle : Nat → String → TaskOutcome) (hb : List Nat) (hh : String) (r : TTSRun)
    (hok : generate_tts_files db fs oracle hb hh = .ok r) :
    r.db.map exceptMp3 = db.map exceptMp3 := by
  simp only [generate_tts_files] at hok
  cases hp : ttsPhase1 hb hh fs (get_instructions_by_hash db hb) db with
  | error e => rw [hp] at hok; exact absurd hok (by simp)
  | ok t =>
    obtain ⟨db1, tasks, sk⟩ := t
    rw [hp] at hok
    simp only [Except.ok.injEq] at hok
    rw [← hok]
    show ((applyTTSResults hb _ db1).1).map exceptMp3 = _
    rw [applyTTS_exceptMp3, ttsPhase1_exceptMp3 hb hh fs _ db db1 tasks sk hp]

theorem tdPhase1_exceptGlb (hb : List Nat) (hh : String) (fs : String → Option String) :
    ∀ (rows : List (Nat × String)) (db : List StepRow),
      ((tdPhase1 hb hh fs rows db).1).map exceptGlb = db.map exceptGlb := by
  intro rows
  induction rows with
  | nil => intro db; rfl
  | cons p rest ih =>
    obtain ⟨s, f⟩ := p
    intro db
    rw [tdPhase1]
    by_cases hex : (fs (glbName hh s)).isSome
    · rw [if_pos hex]
      show ((tdPhase1 hb hh fs rest (update_glb_filename db hb s (glbName hh s))).1).map
          exceptGlb = _
      rw [ih, update_glb_exceptGlb]
    · rw [if_neg hex]
      exact ih db

theorem applyTD_exceptGlb (hb : List Nat) :
    ∀ (prs : List ((Nat × String) × TaskOutcome)) (db : List StepRow),
      ((applyTDResults hb prs db).1).map exceptGlb = db.map exceptGlb := by
  intro prs
  induction prs with
  | nil => intro db; rfl
  | cons p rest ih =>
    obtain ⟨⟨s, d⟩, res⟩ := p
    intro db
    cases res with
    | error e => exact ih db
    | ok v =>
      cases v with
      | none => exact ih db
      | some fn =>
        show ((applyTDResults hb rest (update_glb_filename db hb s fn)).1).map exceptGlb = _
        rw [ih, update_glb_exceptGlb]

theorem generate_3d_exceptGlb (db : List StepRow) (fs : String → Option String)
    (oracle : Nat → String → TaskOutcome) (hb : List Nat) (hh : String) :
    (generate_3d_models db fs oracle hb hh).db.map exceptGlb = db.map exceptGlb := by
  unfold generate_3d_models
  show ((applyTDResults hb _ ((tdPhase1 hb hh fs _ db).1)).1).map exceptGlb = _
  rw [applyTD_exceptGlb, tdPhase1_exceptGlb]

theorem glbAt_congr (db1 db2 : List StepRow)
    (he : db1.map exceptMp3 = db2.map exceptMp3) (hb : List Nat) (s : Nat) :
    glbAt db1 hb s = glbAt db2 hb s := by
  induction db1 generalizing db2 with
  | nil => cases db2 with
    | nil => rfl
    | cons r2 rs2 => simp at he
  | cons r rs ih =>
    cases db2 with
    | nil => simp at he
    | cons r2 rs2 =>
      simp only [List.map_cons, List.cons.injEq] at he
      obtain ⟨h1, h2⟩ := he
      simp only [exceptMp3, Prod.mk.injEq] at h1
      obtain ⟨e1, e2, e3, e4, e5, e6, e7, e8⟩ := h1
      rw [glbAt_cons, glbAt_cons, e1, e3, e5, ih rs2 h2]

theorem mp3At_update_same (db : List StepRow) (hb : List Nat) (s : Nat) (fn : String) :
    mp3At (update_mp3_filename db hb s fn) hb s =
      (mp3At db hb s).map (fun _ => some fn) := by
  induction db with
  | nil => rfl
  | cons r rs ih =>
    show mp3At ((if r.hash = hb ∧ r.step = s then _ else r) :: update_mp3_filename rs hb s fn)
        hb s = _
    by_cases hc : (r.hash = hb ∧ r.step = s)
    · rw [if_pos hc, mp3At_cons, mp3At_cons, if_pos hc, if_pos hc]
      simp [ih]
    · rw [if_neg hc, mp3At_cons, mp3At_cons, if_neg hc, if_neg hc]
      exact ih

theorem mp3At_update_other (db : List StepRow) (hb2 : List Nat) (s2 : Nat) (fn : String)
    (hb : List Nat) (s : Nat) (hne : ¬(hb2 = hb ∧ s2 = s)) :
    mp3At (update_mp3_filename db hb2 s2 fn) hb s = mp3At db hb s := by
  induction db with
  | nil => rfl
  | cons r rs ih =>
    show mp3At ((if r.hash = hb2 ∧ r.step = s2 then _ else r) ::
        update_mp3_filename rs hb2 s2 fn) hb s = _
    by_cases hc : (r.hash = hb2 ∧ r.step = s2)
    · have hc2 : ¬(r.hash = hb ∧ r.step = s) := by
        rintro ⟨ha, hs⟩
        exact hne ⟨hc.1 ▸ ha, hc.2 ▸ hs⟩
      rw [if_pos hc, mp3At_cons, mp3At_cons, if_neg hc2, if_neg hc2]
      exact ih
    · rw [if_neg hc, mp3At_cons, mp3At_cons]
      by_cases hc2 : (r.hash = hb ∧ r.step = s)
      · rw [if_pos hc2, if_pos hc2, ih]
      · rw [if_neg hc2, if_neg hc2, ih]

theorem glbAt_update_same (db : List StepRow) (hb : List Nat) (s : Nat) (fn : String) :
    glbAt (update_glb_filename db hb s fn) hb s =
      (glbAt db hb s).map (fun _ => some fn) := by
  induction db with
  | nil => rfl
  | cons r rs ih =>
    show glbAt ((if r.hash = hb ∧ r.step = s then _ else r) :: update_glb_filename rs hb s fn)
        hb s = _
    by_cases hc : (r.hash = hb ∧ r.step = s)
    · rw [if_pos hc, glbAt_cons, glbAt_cons, if_pos hc, if_pos hc]
      simp [ih]
    · rw [if_neg hc, glbAt_cons, glbAt_cons, if_neg hc, if_neg hc]
      exact ih

theorem glbAt_update_other (db : List StepRow) (hb2 : List Nat) (s2 : Nat) (fn : String)
    (hb : List Nat) (s : Nat) (hne : ¬(hb2 = hb ∧ s2 = s)) :
    glbAt (update_glb_filename db hb2 s2 fn) hb s = glbAt db hb s := by
  induction db with
  | nil => rfl
  | cons r rs ih =>
    show glbAt ((if r.hash = hb2 ∧ r.step = s2 then _ else r) ::
        update_glb_filename rs hb2 s2 fn) hb s = _
    by_cases hc : (r.hash = hb2 ∧ r.step = s2)
    · have hc2 : ¬(r.hash = hb ∧ r.step = s) := by
        rintro ⟨ha, hs⟩
        exact hne ⟨hc.1 ▸ ha, hc.2 ▸ hs⟩
      rw [if_pos hc, glbAt_cons, glbAt_cons, if_neg hc2, if_neg hc2]
      exact ih
    · rw [if_neg hc, glbAt_cons, glbAt_cons]
      by_cases hc2 : (r.hash = hb ∧ r.step = s)
      · rw [if_pos hc2, if_pos hc2, ih]
      · rw [if_neg hc2, if_neg hc2, ih]

/-- A derivation task is only submitted for a step whose deterministic mp3
artifact is absent. -/
theorem ttsPhase1_tasks_no_file (hb : List Nat) (hh : String) (fs : String → Option String) :
    ∀ (rows : List (Nat × String)) (db db1 : List StepRow) (tasks : List (Nat × String))
      (sk : Nat), ttsPhase1 hb hh fs rows db = .ok (db1, tasks, sk) →
      ∀ p ∈ tasks, fs (mp3Name hh p.1) = none := by
  intro rows
  induction rows with
  | nil =>
    intro db db1 tasks sk h
    simp only [ttsPhase1, Except.ok.injEq, Prod.mk.injEq] at h
    rw [← h.2.1]
    intro p hp
    simp at hp
  | cons q rest ih =>
    obtain ⟨s, f⟩ := q
    intro db db1 tasks sk h
    rw [ttsPhase1] at h
    by_cases hex : (fs (mp3Name hh s)).isSome
    · rw [if_pos hex] at h
      cases hr : ttsPhase1 hb hh fs rest (update_mp3_filename db hb s (mp3Name hh s)) with
      | error e => rw [hr] at h; exact absurd h (by simp)
      | ok t =>
        obtain ⟨db2, tasks2, sk2⟩ := t
        rw [hr] at h
        simp only [Except.ok.injEq, Prod.mk.injEq] at h
        rw [← h.2.1]
        exact ih _ _ _ _ hr
    · rw [if_neg hex] at h
      cases hc : fs f with
      | none => rw [hc] at h; exact absurd h (by simp)
      | some content =>
        rw [hc] at h
        cases hr : ttsPhase1 hb hh fs rest db with
        | error e => rw [hr] at h; exact absurd h (by simp)
        | ok t =>
          obtain ⟨db2, tasks2, sk2⟩ := t
          rw [hr] at h
          simp only [Except.ok.injEq, Prod.mk.injEq] at h
          rw [← h.2.1]
          intro p hp
          rcases List.mem_cons.mp hp with hp | hp
          · subst hp
            exact Option.not_isSome_iff_eq_none.mp hex
          · exact ih _ _ _ _ hr p hp

/-- The submitted task steps form a sublist of the enumerated row steps. -/
theorem ttsPhase1_tasks_sublist (hb : List Nat) (hh : String) (fs : String → Option String) :
    ∀ (rows : List (Nat × String)) (db db1 : List StepRow) (tasks : List (Nat × String))
      (sk : Nat), ttsPhase1 hb hh fs rows db = .ok (db1, tasks, sk) →
      List.Sublist (tasks.map Prod.fst) (rows.map Prod.fst) := by
  intro rows
  induction rows with
  | nil =>
    intro db db1 tasks sk h
    simp only [ttsPhase1, Except.ok.injEq, Prod.mk.injEq] at h
    rw [← h.2.1]
  | cons q rest ih =>
    obtain ⟨s, f⟩ := q
    intro db db1 tasks sk h
    rw [ttsPhase1] at h
    by_cases hex : (fs (mp3Name hh s)).isSome
    · rw [if_pos hex] at h
      cases hr : ttsPhase1 hb hh fs rest (update_mp3_filename db hb s (mp3Name hh s)) with
      | error e => rw [hr] at h; exact absurd h (by simp)
      | ok t =>
        obtain ⟨db2, tasks2, sk2⟩ := t
        rw [hr] at h
        simp only [Except.ok.injEq, Prod.mk.injEq] at h
        rw [← h.2.1]
        exact List.Sublist.cons s (ih _ _ _ _ hr)
    · rw [if_neg hex] at h
      cases hc : fs f with
      | none => rw [hc] at h; exact absurd h (by simp)
      | some content =>
        rw [hc] at h
        cases hr : ttsPhase1 hb hh fs rest db with
        | error e => rw [hr] at h; exact absurd h (by simp)
        | ok t =>
          obtain ⟨db2, tasks2, sk2⟩ := t
          rw [hr] at h
          simp only [Except.ok.injEq, Prod.mk.injEq] at h
          rw [← h.2.1]
          exact List.Sublist.cons₂ s (ih _ _ _ _ hr)

/-- Every enumerated row is either skipped (its mp3 artifact exists) or
submitted as a task. -/
theorem ttsPhase1_cases (hb : List Nat) (hh : String) (fs : String → Option String) :
    ∀ (rows : List (Nat × String)) (db db1 : List StepRow) (tasks : List (Nat × String))
      (sk : Nat), ttsPhase1 hb hh fs rows db = .ok (db1, tasks, sk) →
      ∀ p ∈ rows, (fs (mp3Name hh p.1)).isSome = true ∨ ∃ d, (p.1, d) ∈ tasks := by
  intro rows
  induction rows with
  | nil => intro db db1 tasks sk h p hp; simp at hp
  | cons q rest ih =>
    obtain ⟨s, f⟩ := q
    intro db db1 tasks sk h p hp
    rw [ttsPhase1] at h
    by_cases hex : (fs (mp3Name hh s)).isSome
    · rw [if_pos hex] at h
      cases hr : ttsPhase1 hb hh fs rest (update_mp3_filename db hb s (mp3Name hh s)) with
      | error e => rw [hr] at h; exact absurd h (by simp)
      | ok t =>
        obtain ⟨db2, tasks2, sk2⟩ := t
        rw [hr] at h
        simp only [Except.ok.injEq, Prod.mk.injEq] at h
        rcases List.mem_cons.mp hp with hp | hp
        · subst hp; exact Or.inl hex
        · rcases ih _ _ _ _ hr p hp with hc | ⟨d, hd⟩
          · exact Or.inl hc
          · exact Or.inr ⟨d, h.2.1 ▸ hd⟩
    · rw [if_neg hex] at h
      cases hc : fs f with
      | none => rw [hc] at h; exact absurd h (by simp)
      | some content =>
        rw [hc] at h
        cases hr : ttsPhase1 hb hh fs rest db with
        | error e => rw [hr] at h; exact absurd h (by simp)
        | ok t =>
          obtain ⟨db2, tasks2, sk2⟩ := t
          rw [hr] at h
          simp only [Except.ok.injEq, Prod.mk.injEq] at h
          rcases List.mem_cons.mp hp with hp | hp
          · subst hp
            exact Or.inr ⟨descriptionOf (pyStrip content), h.2.1 ▸ List.mem_cons_self _ _⟩
          · rcases ih _ _ _ _ hr p hp with hcc | ⟨d, hd⟩
            · exact Or.inl hcc
            · exact Or.inr ⟨d, h.2.1 ▸ List.mem_cons_of_mem _ hd⟩

/-- When every enumerated row's mp3 artifact already exists, the first phase
skips every row: no task is submitted and every step is counted as reused. -/
theorem ttsPhase1_all_skipped (hb : List Nat) (hh : String) (fs : String → Option String) :
    ∀ (rows : List (Nat × String)) (db : List StepRow),
      (∀ p ∈ rows, (fs (mp3Name hh p.1)).isSome = true) →
      ∃ db1, ttsPhase1 hb hh fs rows db = .ok (db1, [], rows.length) := by
  intro rows
  induction rows with
  | nil => intro db _; exact ⟨db, rfl⟩
  | cons q rest ih =>
    obtain ⟨s, f⟩ := q
    intro db hall
    obtain ⟨db1, hdb1⟩ :=
      ih (update_mp3_filename db hb s (mp3Name hh s))
        (fun p hp => hall p (List.mem_cons_of_mem _ hp))
    refine ⟨db1, ?_⟩
    rw [ttsPhase1, if_pos (hall (s, f) (List.mem_cons_self _ _)), hdb1]
    rfl

/-- Tasks and skips partition the enumerated rows. -/
theorem ttsPhase1_count (hb : List Nat) (hh : String) (fs : String → Option String) :
    ∀ (rows : List (Nat × String)) (db db1 : List StepRow) (tasks : List (Nat × String))
      (sk : Nat), ttsPhase1 hb hh fs rows db = .ok (db1, tasks, sk) →
      tasks.length + sk = rows.length := by
  intro rows
  induction rows with
  | nil =>
    intro db db1 tasks sk h
    simp only [ttsPhase1, Except.ok.injEq, Prod.mk.injEq] at h
    rw [← h.2.1, ← h.2.2]
    rfl
  | cons q rest ih =>
    obtain ⟨s, f⟩ := q
    intro db db1 tasks sk h
    rw [ttsPhase1] at h
    by_cases hex : (fs (mp3Name hh s)).isSome
    · rw [if_pos hex] at h
      cases hr : ttsPhase1 hb hh fs rest (update_mp3_filename db hb s (mp3Name hh s)) with
      | error e => rw [hr] at h; exact absurd h (by simp)
      | ok t =>
        obtain ⟨db2, tasks2, sk2⟩ := t
        rw [hr] at h
        simp only [Except.ok.injEq, Prod.mk.injEq] at h
        rw [← h.2.1, ← h.2.2]
        have := ih _ _ _ _ hr
        simp [← this]
        omega
    · rw [if_neg hex] at h
      cases hc : fs f with
      | none => rw [hc] at h; exact absurd h (by simp)
      | some content =>
        rw [hc] at h
        cases hr : ttsPhase1 hb hh fs rest db with
        | error e => rw [hr] at h; exact absurd h (by simp)
        | ok t =>
          obtain ⟨db2, tasks2, sk2⟩ := t
          rw [hr] at h
          simp only [Except.ok.injEq, Prod.mk.injEq] at h
          rw [← h.2.1, ← h.2.2]
          have := ih _ _ _ _ hr
          simp [← this]
          omega

/-- Elements of a list zipped against its image under `g`. -/
theorem zip_map_self_mem {α β : Type} (g : α → β) :
    ∀ (l : List α) (x : α), x ∈ l → (x, g x) ∈ l.zip (l.map g) := by
  intro l
  induction l with
  | nil => intro x hx; simp at hx
  | cons a as ih =>
    intro x hx
    rcases List.mem_cons.mp hx with hx | hx
    · subst hx; simp
    · exact List.mem_cons_of_mem _ (ih x hx)

/-- Conversely, members of such a zip are of that shape. -/
theorem mem_zip_map_self {α β : Type} (g : α → β) :
    ∀ (l : List α) (q : α × β), q ∈ l.zip (l.map g) → q.1 ∈ l ∧ q.2 = g q.1 := by
  intro l
  induction l with
  | nil => intro q hq; simp at hq
  | cons a as ih =>
    intro q hq
    rcases List.mem_cons.mp hq with hq | hq
    · subst hq; simp
    · obtain ⟨h1, h2⟩ := ih q hq
      exact ⟨List.mem_cons_of_mem _ h1, h2⟩

/-- The first phase leaves the mp3 values of a step it never enumerates
untouched. -/
theorem ttsPhase1_mp3At_not_enumerated (hb : List Nat) (hh : String)
    (fs : String → Option String) :
    ∀ (rows : List (Nat × String)) (db db1 : List StepRow) (tasks : List (Nat × String))
      (sk : Nat), ttsPhase1 hb hh fs rows db = .ok (db1, tasks, sk) →
      ∀ s, (∀ p ∈ rows, p.1 ≠ s) → mp3At db1 hb s = mp3At db hb s := by
  intro rows
  induction rows with
  | nil =>
    intro db db1 tasks sk h s _
    simp only [ttsPhase1, Except.ok.injEq, Prod.mk.injEq] at h
    rw [← h.1]
  | cons q rest ih =>
    obtain ⟨s0, f⟩ := q
    intro db db1 tasks sk h s hns
    rw [ttsPhase1] at h
    by_cases hex : (fs (mp3Name hh s0)).isSome
    · rw [if_pos hex] at h
      cases hr : ttsPhase1 hb hh fs rest (update_mp3_filename db hb s0 (mp3Name hh s0)) with
      | error e => rw [hr] at h; exact absurd h (by simp)
      | ok t =>
        obtain ⟨db2, tasks2, sk2⟩ := t
        rw [hr] at h
        simp only [Except.ok.injEq, Prod.mk.injEq] at h
        rw [← h.1, ih _ _ _ _ hr s (fun p hp => hns p (List.mem_cons_of_mem _ hp))]
        exact mp3At_update_other db hb s0 (mp3Name hh s0) hb s
          (fun hc => hns (s0, f) (List.mem_cons_self _ _) hc.2)
    · rw [if_neg hex] at h
      cases hc : fs f with
      | none => rw [hc] at h; exact absurd h (by simp)
      | some content =>
        rw [hc] at h
        cases hr : ttsPhase1 hb hh fs rest db with
        | error e => rw [hr] at h; exact absurd h (by simp)
        | ok t =>
          obtain ⟨db2, tasks2, sk2⟩ := t
          rw [hr] at h
          simp only [Except.ok.injEq, Prod.mk.injEq] at h
          rw [← h.1]
          exact ih _ _ _ _ hr s (fun p hp => hns p (List.mem_cons_of_mem _ hp))

/-- The first phase leaves the mp3 values of a task (non-skipped) step
untouched, provided the enumerated steps are duplicate-free. -/
theorem ttsPhase1_mp3At_task (hb : List Nat) (hh : String) (fs : String → Option String) :
    ∀ (rows : List (Nat × String)) (db db1 : List StepRow) (tasks : List (Nat × String))
      (sk : Nat), ttsPhase1 hb hh fs rows db = .ok (db1, tasks, sk) →
      (rows.map Prod.fst).Nodup →
      ∀ s, (∃ d, (s, d) ∈ tasks) → mp3At db1 hb s = mp3At db hb s := by
  intro rows
  induction rows with
  | nil =>
    intro db db1 tasks sk h _ s hs
    simp only [ttsPhase1, Except.ok.injEq, Prod.mk.injEq] at h
    rw [← h.1]
  | cons q rest ih =>
    obtain ⟨s0, f⟩ := q
    intro db db1 tasks sk h hnd s hs
    rw [List.map_cons, List.nodup_cons] at hnd
    obtain ⟨hs0, hndr⟩ := hnd
    rw [ttsPhase1] at h
    by_cases hex : (fs (mp3Name hh s0)).isSome
    · rw [if_pos hex] at h
      cases hr : ttsPhase1 hb hh fs rest (update_mp3_filename db hb s0 (mp3Name hh s0)) with
      | error e => rw [hr] at h; exact absurd h (by simp)
      | ok t =>
        obtain ⟨db2, tasks2, sk2⟩ := t
        rw [hr] at h
        simp only [Except.ok.injEq, Prod.mk.injEq] at h
        obtain ⟨d, hd⟩ := hs
        have hd2 : (s, d) ∈ tasks2 := h.2.1 ▸ hd
        have hsrest : s ∈ rest.map Prod.fst := by
          have hsub := ttsPhase1_tasks_sublist hb hh fs rest _ _ _ _ hr
          exact hsub.subset (List.mem_map_of_mem Prod.fst hd2)
        have hne : s0 ≠ s := fun he => hs0 (he ▸ hsrest)
        rw [← h.1, ih _ _ _ _ hr hndr s ⟨d, hd2⟩]
        exact mp3At_update_other db hb s0 (mp3Name hh s0) hb s (fun hc => hne hc.2)
    · rw [if_neg hex] at h
      cases hc : fs f with
      | none => rw [hc] at h; exact absurd h (by simp)
      | some content =>
        rw [hc] at h
        cases hr : ttsPhase1 hb hh fs rest db with
        | error e => rw [hr] at h; exact absurd h (by simp)
        | ok t =>
          obtain ⟨db2, tasks2, sk2⟩ := t
          rw [hr] at h
          simp only [Except.ok.injEq, Prod.mk.injEq] at h
          rw [← h.1]
          obtain ⟨d, hd⟩ := hs
          have hd2 : (s, d) ∈ (s0, descriptionOf (pyStrip content)) :: tasks2 := h.2.1 ▸ hd
          rcases List.mem_cons.mp hd2 with hd2 | hd2
          · have hseq : s = s0 := congrArg Prod.fst hd2
            subst hseq
            exact ttsPhase1_mp3At_not_enumerated hb hh fs rest _ _ _ _ hr s
              (fun p hp he => hs0 (by
                have h2 := List.mem_map_of_mem Prod.fst hp
                rw [← he]
                exact h2))
          · exact ih _ _ _ _ hr hndr s ⟨d, hd2⟩

/-- The collection loop leaves a step's mp3 values untouched when no pair for
that step carries a truthy result. -/
theorem applyTTS_mp3At_no_success (hb : List Nat) :
    ∀ (prs : List ((Nat × String) × TaskOutcome)) (db : List StepRow) (s : Nat),
      (∀ q ∈ prs, q.1.1 = s → q.2 = Except.error () ∨ q.2 = Except.ok none) →
      mp3At (applyTTSResults hb prs db).1 hb s = mp3At db hb s := by
  intro prs
  induction prs with
  | nil => intro db s _; rfl
  | cons q rest ih =>
    obtain ⟨⟨s0, d0⟩, res⟩ := q
    intro db s hno
    cases res with
    | error e =>
      cases e
      exact ih db s (fun q hq => hno q (List.mem_cons_of_mem _ hq))
    | ok v =>
      cases v with
      | none => exact ih db s (fun q hq => hno q (List.mem_cons_of_mem _ hq))
      | some fn =>
        have hne : s0 ≠ s := by
          intro he
          rcases hno ((s0, d0), .ok (some fn)) (List.mem_cons_self _ _) he with hc | hc <;>
            simp at hc
        show mp3At (applyTTSResults hb rest (update_mp3_filename db hb s0 fn)).1 hb s = _
        rw [ih _ s (fun q hq => hno q (List.mem_cons_of_mem _ hq))]
        exact mp3At_update_other db hb s0 fn hb s (fun hc => hne hc.2)

/-- The collection loop records a pair's truthy result on its step, provided
the submitted steps are duplicate-free. -/
theorem applyTTS_mp3At_success (hb : List Nat) :
    ∀ (prs : List ((Nat × String) × TaskOutcome)) (db : List StepRow) (s : Nat)
      (d : String) (fn : String),
      (prs.map (fun q => q.1.1)).Nodup →
      ((s, d), Except.ok (some fn)) ∈ prs →
      mp3At (applyTTSResults hb prs db).1 hb s = (mp3At db hb s).map (fun _ => some fn) := by
  intro prs
  induction prs with
  | nil => intro db s d fn _ hmem; simp at hmem
  | cons q rest ih =>
    obtain ⟨⟨s0, d0⟩, res⟩ := q
    intro db s d fn hnd hmem
    rw [List.map_cons, List.nodup_cons] at hnd
    obtain ⟨hs0, hndr⟩ := hnd
    rcases List.mem_cons.mp hmem with hm | hm
    · have hseq : s0 = s := (congrArg (fun q => q.1.1) hm.symm)
      subst hseq
      have hres : res = Except.ok (some fn) := congrArg Prod.snd hm.symm
      subst hres
      show mp3At (applyTTSResults hb rest (update_mp3_filename db hb s0 fn)).1 hb s0 = _
      rw [applyTTS_mp3At_no_success hb rest _ s0
        (fun q hq he => absurd (by rw [← he]; exact List.mem_map_of_mem (fun q => q.1.1) hq) hs0)]
      exact mp3At_update_same db hb s0 fn
    · have hsrest : s ∈ rest.map (fun q => q.1.1) :=
        List.mem_map_of_mem (fun q => q.1.1) hm
      have hne : s0 ≠ s := fun he => hs0 (he ▸ hsrest)
      cases res with
      | error e => exact ih db s d fn hndr hm
      | ok v =>
        cases v with
        | none => exact ih db s d fn hndr hm
        | some fn0 =>
          show mp3At (applyTTSResults hb rest (update_mp3_filename db hb s0 fn0)).1 hb s = _
          rw [ih _ s d fn hndr hm]
          rw [mp3At_update_other db hb s0 fn0 hb s (fun hc => hne hc.2)]

/-- Anatomy of a successful `generate_tts_files` run. -/
theorem generate_tts_elim (db : List StepRow) (fs : String → Option String)
    (oracle : Nat → String → TaskOutcome) (hb : List Nat) (hh : String) (r : TTSRun)
    (hok : generate_tts_files db fs oracle hb hh = .ok r) :
    ∃ db1 sk,
      ttsPhase1 hb hh fs (get_instructions_by_hash db hb) db = .ok (db1, r.tasks, sk) ∧
      r.results = r.tasks.map (fun t => oracle t.1 t.2) ∧
      r.db = (applyTTSResults hb (r.tasks.zip r.results) db1).1 ∧
      r.generated = (applyTTSResults hb (r.tasks.zip r.results) db1).2 ∧
      r.skipped = sk := by
  simp only [generate_tts_files] at hok
  cases hp : ttsPhase1 hb hh fs (get_instructions_by_hash db hb) db with
  | error e => rw [hp] at hok; exact absurd hok (by simp)
  | ok t =>
    obtain ⟨db1, tasks, sk⟩ := t
    rw [hp] at hok
    simp only [Except.ok.injEq] at hok
    subst hok
    exact ⟨db1, sk, rfl, rfl, rfl, rfl, rfl⟩

/-- The task steps of a successful run are duplicate-free when the enumerated
ledger steps are. -/
theorem generate_tts_tasks_nodup (db : List StepRow) (fs : String → Option String)
    (oracle : Nat → String → TaskOutcome) (hb : List Nat) (hh : String) (r : TTSRun)
    (hok : generate_tts_files db fs oracle hb hh = .ok r)
    (hnd : ((get_instructions_by_hash db hb).map Prod.fst).Nodup) :
    (r.tasks.map Prod.fst).Nodup := by
  obtain ⟨db1, sk, hp, _, _, _, _⟩ := generate_tts_elim db fs oracle hb hh r hok
  exact (ttsPhase1_tasks_sublist hb hh fs _ _ _ _ _ hp).nodup hnd

/-- A successful narration task's filename is recorded on exactly its step:
after the run, every ledger row for (hash, step) carries it. -/
theorem generate_tts_mp3_set (db : List StepRow) (fs : String → Option String)
    (oracle : Nat → String → TaskOutcome) (hb : List Nat) (hh : String) (r : TTSRun)
    (hok : generate_tts_files db fs oracle hb hh = .ok r)
    (hnd : ((get_instructions_by_hash db hb).map Prod.fst).Nodup)
    (p : Nat × String) (hp : p ∈ r.tasks) (fn : String)
    (hres : oracle p.1 p.2 = .ok (some fn)) :
    mp3At r.db hb p.1 = (mp3At db hb p.1).map (fun _ => some fn) := by
  obtain ⟨db1, sk, hph, hrs, hdb, _, _⟩ := generate_tts_elim db fs oracle hb hh r hok
  have htnd : (r.tasks.map Prod.fst).Nodup :=
    (ttsPhase1_tasks_sublist hb hh fs _ _ _ _ _ hph).nodup hnd
  have hznd : ((r.tasks.zip r.results).map (fun q => q.1.1)).Nodup := by
    have hlen : r.tasks.length ≤ r.results.length := by rw [hrs, List.length_map]
    have : (r.tasks.zip r.results).map Prod.fst = r.tasks := List.map_fst_zip _ _ hlen
    have h2 : (r.tasks.zip r.results).map (fun q => q.1.1) =
        ((r.tasks.zip r.results).map Prod.fst).map Prod.fst := by
      rw [List.map_map]
      rfl
    rw [h2, this]
    exact htnd
  have hmem : ((p.1, p.2), Except.ok (some fn)) ∈ r.tasks.zip r.results := by
    rw [hrs]
    have h3 := zip_map_self_mem (fun t : Nat × String => oracle t.1 t.2) r.tasks p hp
    rw [show (fun t : Nat × String => oracle t.1 t.2) p = Except.ok (some fn) from hres] at h3
    exact h3
  rw [hdb]
  rw [applyTTS_mp3At_success hb _ db1 p.1 p.2 fn hznd hmem]
  rw [ttsPhase1_mp3At_task hb hh fs _ _ _ _ _ hph hnd p.1 ⟨p.2, hp⟩]

/-- A failed (or falsy) narration task leaves its step's mp3 field exactly as
it was before the run. -/
theorem generate_tts_mp3_failed (db : List StepRow) (fs : String → Option String)
    (oracle : Nat → String → TaskOutcome) (hb : List Nat) (hh : String) (r : TTSRun)
    (hok : generate_tts_files db fs oracle hb hh = .ok r)
    (hnd : ((get_instructions_by_hash db hb).map Prod.fst).Nodup)
    (p : Nat × String) (hp : p ∈ r.tasks)
    (hres : oracle p.1 p.2 = .error () ∨ oracle p.1 p.2 = .ok none) :
    mp3At r.db hb p.1 = mp3At db hb p.1 := by
  obtain ⟨db1, sk, hph, hrs, hdb, _, _⟩ := generate_tts_elim db fs oracle hb hh r hok
  have htnd : (r.tasks.map Prod.fst).Nodup :=
    (ttsPhase1_tasks_sublist hb hh fs _ _ _ _ _ hph).nodup hnd
  rw [hdb]
  rw [applyTTS_mp3At_no_success hb _ db1 p.1 ?hno]
  · exact ttsPhase1_mp3At_task hb hh fs _ _ _ _ _ hph hnd p.1 ⟨p.2, hp⟩
  case hno =>
    intro q hq he
    rw [hrs] at hq
    obtain ⟨hq1, hq2⟩ := mem_zip_map_self (fun t : Nat × String => oracle t.1 t.2) r.tasks q hq
    have hqp : q.1 = p := by
      have := List.inj_on_of_nodup_map htnd hq1 hp he
      exact this
    rw [hq2, hqp]
    exact hres

/-- C7: in a narration derivation batch, the gathered results list is the
positional image of the submitted task list (submission order, not
completion order), and the i-th gathered result updates the ledger rows of
exactly the step of the i-th submitted (step, task) pair. -/
theorem C7_positional_pairing (db : List StepRow) (fs : String → Option String)
    (oracle : Nat → String → TaskOutcome) (hb : List Nat) (hh : String) (r : TTSRun)
    (hok : generate_tts_files db fs oracle hb hh = .ok r)
    (hnd : ((get_instructions_by_hash db hb).map Prod.fst).Nodup) :
    r.results = r.tasks.map (fun t => oracle t.1 t.2) ∧
    ∀ (i : Nat) (h1 : i < r.tasks.length) (h2 : i < r.results.length) (fn : String),
      r.results.get ⟨i, h2⟩ = .ok (some fn) →
      mp3At r.db hb (r.tasks.get ⟨i, h1⟩).1 =
        (mp3At db hb (r.tasks.get ⟨i, h1⟩).1).map (fun _ => some fn) := by
  obtain ⟨db1, sk, hph, hrs, hdb, hg, hsk⟩ := generate_tts_elim db fs oracle hb hh r hok
  refine ⟨hrs, fun i h1 h2 fn hres => ?_⟩
  have hcast := List.get_of_eq hrs ⟨i, h2⟩
  rw [hcast] at hres
  have horacle : oracle (r.tasks.get ⟨i, h1⟩).1 (r.tasks.get ⟨i, h1⟩).2 =
      Except.ok (some fn) := by
    rw [← hres]
    simp [List.get_map]
  exact generate_tts_mp3_set db fs oracle hb hh r hok hnd (r.tasks.get ⟨i, h1⟩)
    (List.get_mem _ _ _) fn horacle

theorem tdPhase1_tasks_no_file (hb : List Nat) (hh : String) (fs : String → Option String) :
    ∀ (rows : List (Nat × String)) (db : List StepRow),
      ∀ p ∈ (tdPhase1 hb hh fs rows db).2.1, fs (glbName hh p.1) = none := by
  intro rows
  induction rows with
  | nil => intro db p hp; simp [tdPhase1] at hp
  | cons q rest ih =>
    obtain ⟨s, f⟩ := q
    intro db p hp
    rw [tdPhase1] at hp
    by_cases hex : (fs (glbName hh s)).isSome
    · rw [if_pos hex] at hp
      exact ih _ p hp
    · rw [if_neg hex] at hp
      rcases List.mem_cons.mp hp with hp | hp
      · subst hp
        exact Option.not_isSome_iff_eq_none.mp hex
      · exact ih _ p hp

theorem tdPhase1_tasks_sublist (hb : List Nat) (hh : String) (fs : String → Option String) :
    ∀ (rows : List (Nat × String)) (db : List StepRow),
      List.Sublist ((tdPhase1 hb hh fs rows db).2.1.map Prod.fst) (rows.map Prod.fst) := by
  intro rows
  induction rows with
  | nil => intro db; simp [tdPhase1]
  | cons q rest ih =>
    obtain ⟨s, f⟩ := q
    intro db
    rw [tdPhase1]
    by_cases hex : (fs (glbName hh s)).isSome
    · rw [if_pos hex]
      exact List.Sublist.cons s (ih _)
    · rw [if_neg hex]
      exact List.Sublist.cons₂ s (ih _)

theorem tdPhase1_cases (hb : List Nat) (hh : String) (fs : String → Option String) :
    ∀ (rows : List (Nat × String)) (db : List StepRow),
      ∀ p ∈ rows, (fs (glbName hh p.1)).isSome = true ∨
        ∃ d, (p.1, d) ∈ (tdPhase1 hb hh fs rows db).2.1 := by
  intro rows
  induction rows with
  | nil => intro db p hp; simp at hp
  | cons q rest ih =>
    obtain ⟨s, f⟩ := q
    intro db p hp
    rw [tdPhase1]
    by_cases hex : (fs (glbName hh s)).isSome
    · rw [if_pos hex]
      rcases List.mem_cons.mp hp with hp | hp
      · subst hp; exact Or.inl hex
      · rcases ih _ p hp with hc | ⟨d, hd⟩
        · exact Or.inl hc
        · exact Or.inr ⟨d, hd⟩
    · rw [if_neg hex]
      rcases List.mem_cons.mp hp with hp | hp
      · subst hp
        exact Or.inr ⟨"volume/" ++ f, List.mem_cons_self _ _⟩
      · rcases ih _ p hp with hc | ⟨d, hd⟩
        · exact Or.inl hc
        · exact Or.inr ⟨d, List.mem_cons_of_mem _ hd⟩

theorem tdPhase1_all_skipped (hb : List Nat) (hh : String) (fs : String → Option String) :
    ∀ (rows : List (Nat × String)) (db : List StepRow),
      (∀ p ∈ rows, (fs (glbName hh p.1)).isSome = true) →
      (tdPhase1 hb hh fs rows db).2.1 = [] ∧
      (tdPhase1 hb hh fs rows db).2.2 = rows.length := by
  intro rows
  induction rows with
  | nil => intro db _; exact ⟨rfl, rfl⟩
  | cons q rest ih =>
    obtain ⟨s, f⟩ := q
    intro db hall
    rw [tdPhase1, if_pos (hall (s, f) (List.mem_cons_self _ _))]
    obtain ⟨h1, h2⟩ := ih (update_glb_filename db hb s (glbName hh s))
      (fun p hp => hall p (List.mem_cons_of_mem _ hp))
    exact ⟨h1, by simp [h2]⟩

theorem tdPhase1_count (hb : List Nat) (hh : String) (fs : String → Option String) :
    ∀ (rows : List (Nat × String)) (db : List StepRow),
      (tdPhase1 hb hh fs rows db).2.1.length + (tdPhase1 hb hh fs rows db).2.2 =
        rows.length := by
  intro rows
  induction rows with
  | nil => intro db; rfl
  | cons q rest ih =>
    obtain ⟨s, f⟩ := q
    intro db
    rw [tdPhase1]
    by_cases hex : (fs (glbName hh s)).isSome
    · rw [if_pos hex]
      have := ih (update_glb_filename db hb s (glbName hh s))
      simp only [List.length_cons]
      omega
    · rw [if_neg hex]
      have := ih db
      simp only [List.length_cons]
      omega

theorem tdPhase1_glbAt_not_enumerated (hb : List Nat) (hh : String)
    (fs : String → Option String) :
    ∀ (rows : List (Nat × String)) (db : List StepRow) (s : Nat),
      (∀ p ∈ rows, p.1 ≠ s) →
      glbAt (tdPhase1 hb hh fs rows db).1 hb s = glbAt db hb s := by
  intro rows
  induction rows with
  | nil => intro db s _; rfl
  | cons q rest ih =>
    obtain ⟨s0, f⟩ := q
    intro db s hns
    rw [tdPhase1]
    by_cases hex : (fs (glbName hh s0)).isSome
    · rw [if_pos hex]
      rw [ih _ s (fun p hp => hns p (List.mem_cons_of_mem _ hp))]
      exact glbAt_update_other db hb s0 (glbName hh s0) hb s
        (fun hc => hns (s0, f) (List.mem_cons_self _ _) hc.2)
    · rw [if_neg hex]
      exact ih _ s (fun p hp => hns p (List.mem_cons_of_mem _ hp))

theorem tdPhase1_glbAt_task (hb : List Nat) (hh : String) (fs : String → Option String) :
    ∀ (rows : List (Nat × String)) (db : List StepRow),
      (rows.map Prod.fst).Nodup →
      ∀ s, (∃ d, (s, d) ∈ (tdPhase1 hb hh fs rows db).2.1) →
      glbAt (tdPhase1 hb hh fs rows db).1 hb s = glbAt db hb s := by
  intro rows
  induction rows with
  | nil => intro db _ s hs; obtain ⟨d, hd⟩ := hs; simp [tdPhase1] at hd
  | cons q rest ih =>
    obtain ⟨s0, f⟩ := q
    intro db hnd s hs
    rw [List.map_cons, List.nodup_cons] at hnd
    obtain ⟨hs0, hndr⟩ := hnd
    rw [tdPhase1] at hs ⊢
    by_cases hex : (fs (glbName hh s0)).isSome
    · rw [if_pos hex] at hs ⊢
      obtain ⟨d, hd⟩ := hs
      have hsrest : s ∈ rest.map Prod.fst :=
        (tdPhase1_tasks_sublist hb hh fs rest _).subset (List.mem_map_of_mem Prod.fst hd)
      have hne : s0 ≠ s := fun he => hs0 (he ▸ hsrest)
      rw [ih _ hndr s ⟨d, hd⟩]
      exact glbAt_update_other db hb s0 (glbName hh s0) hb s (fun hc => hne hc.2)
    · rw [if_neg hex] at hs ⊢
      obtain ⟨d, hd⟩ := hs
      rcases List.mem_cons.mp hd with hd | hd
      · have hseq : s = s0 := congrArg Prod.fst hd
        subst hseq
        exact tdPhase1_glbAt_not_enumerated hb hh fs rest _ s
          (fun p hp he => hs0 (by
            have h2 := List.mem_map_of_mem Prod.fst hp
            rw [← he]
            exact h2))
      · exact ih _ hndr s ⟨d, hd⟩

theorem applyTD_glbAt_no_success (hb : List Nat) :
    ∀ (prs : List ((Nat × String) × TaskOutcome)) (db : List StepRow) (s : Nat),
      (∀ q ∈ prs, q.1.1 = s → q.2 = Except.error () ∨ q.2 = Except.ok none) →
      glbAt (applyTDResults hb prs db).1 hb s = glbAt db hb s := by
  intro prs
  induction prs with
  | nil => intro db s _; rfl
  | cons q rest ih =>
    obtain ⟨⟨s0, d0⟩, res⟩ := q
    intro db s hno
    cases res with
    | error e =>
      cases e
      exact ih db s (fun q hq => hno q (List.mem_cons_of_mem _ hq))
    | ok v =>
      cases v with
      | none => exact ih db s (fun q hq => hno q (List.mem_cons_of_mem _ hq))
      | some fn =>
        have hne : s0 ≠ s := by
          intro he
          rcases hno ((s0, d0), .ok (some fn)) (List.mem_cons_self _ _) he with hc | hc <;>
            simp at hc
        show glbAt (applyTDResults hb rest (update_glb_filename db hb s0 fn)).1 hb s = _
        rw [ih _ s (fun q hq => hno q (List.mem_cons_of_mem _ hq))]
        exact glbAt_update_other db hb s0 fn hb s (fun hc => hne hc.2)

theorem applyTD_glbAt_success (hb : List Nat) :
    ∀ (prs : List ((Nat × String) × TaskOutcome)) (db : List StepRow) (s : Nat)
      (d : String) (fn : String),
      (prs.map (fun q => q.1.1)).Nodup →
      ((s, d), Except.ok (some fn)) ∈ prs →
      glbAt (applyTDResults hb prs db).1 hb s = (glbAt db hb s).map (fun _ => some fn) := by
  intro prs
  induction prs with
  | nil => intro db s d fn _ hmem; simp at hmem
  | cons q rest ih =>
    obtain ⟨⟨s0, d0⟩, res⟩ := q
    intro db s d fn hnd hmem
    rw [List.map_cons, List.nodup_cons] at hnd
    obtain ⟨hs0, hndr⟩ := hnd
    rcases List.mem_cons.mp hmem with hm | hm
    · have hseq : s0 = s := (congrArg (fun q => q.1.1) hm.symm)
      subst hseq
      have hres : res = Except.ok (some fn) := congrArg Prod.snd hm.symm
      subst hres
      show glbAt (applyTDResults hb rest (update_glb_filename db hb s0 fn)).1 hb s0 = _
      rw [applyTD_glbAt_no_success hb rest _ s0
        (fun q hq he => absurd (by rw [← he]; exact List.mem_map_of_mem (fun q => q.1.1) hq) hs0)]
      exact glbAt_update_same db hb s0 fn
    · have hsrest : s ∈ rest.map (fun q => q.1.1) :=
        List.mem_map_of_mem (fun q => q.1.1) hm
      have hne : s0 ≠ s := fun he => hs0 (he ▸ hsrest)
      cases res with
      | error e => exact ih db s d fn hndr hm
      | ok v =>
        cases v with
        | none => exact ih db s d fn hndr hm
        | some fn0 =>
          show glbAt (applyTDResults hb rest (update_glb_filename db hb s0 fn0)).1 hb s = _
          rw [ih _ s d fn hndr hm]
          rw [glbAt_update_other db hb s0 fn0 hb s (fun hc => hne hc.2)]

/-- Anatomy of a `generate_3d_models` run. -/
theorem generate_3d_elim (db : List StepRow) (fs : String → Option String)
    (oracle : Nat → String → TaskOutcome) (hb : List Nat) (hh : String) :
    (generate_3d_models db fs oracle hb hh).tasks =
      (tdPhase1 hb hh fs (get_instructions_with_images db hb) db).2.1 ∧
    (generate_3d_models db fs oracle hb hh).results =
      (generate_3d_models db fs oracle hb hh).tasks.map (fun t => oracle t.1 t.2) ∧
    (generate_3d_models db fs oracle hb hh).db =
      (applyTDResults hb
        ((generate_3d_models db fs oracle hb hh).tasks.zip
          (generate_3d_models db fs oracle hb hh).results)
        (tdPhase1 hb hh fs (get_instructions_with_images db hb) db).1).1 ∧
    (generate_3d_models db fs oracle hb hh).generated =
      (applyTDResults hb
        ((generate_3d_models db fs oracle hb hh).tasks.zip
          (generate_3d_models db fs oracle hb hh).results)
        (tdPhase1 hb hh fs (get_instructions_with_images db hb) db).1).2 ∧
    (generate_3d_models db fs oracle hb hh).skipped =
      (tdPhase1 hb hh fs (get_instructions_with_images db hb) db).2.2 :=
  ⟨rfl, rfl, rfl, rfl, rfl⟩

/-- A successful 3D task's filename is recorded on exactly its step. -/
theorem generate_3d_glb_set (db : List StepRow) (fs : String → Option String)
    (oracle : Nat → String → TaskOutcome) (hb : List Nat) (hh : String)
    (hnd : ((get_instructions_with_images db hb).map Prod.fst).Nodup)
    (q : Nat × String) (hq : q ∈ (generate_3d_models db fs oracle hb hh).tasks)
    (fn : String) (hres : oracle q.1 q.2 = .ok (some fn)) :
    glbAt (generate_3d_models db fs oracle hb hh).db hb q.1 =
      (glbAt db hb q.1).map (fun _ => some fn) := by
  obtain ⟨ht, hrs, hdb, _, _⟩ := generate_3d_elim db fs oracle hb hh
  set r := generate_3d_models db fs oracle hb hh with hr
  have htnd : (r.tasks.map Prod.fst).Nodup := by
    rw [ht]
    exact (tdPhase1_tasks_sublist hb hh fs _ _).nodup hnd
  have hznd : ((r.tasks.zip r.results).map (fun p => p.1.1)).Nodup := by
    have hlen : r.tasks.length ≤ r.results.length := by rw [hrs, List.length_map]
    have h1 : (r.tasks.zip r.results).map Prod.fst = r.tasks := List.map_fst_zip _ _ hlen
    have h2 : (r.tasks.zip r.results).map (fun p => p.1.1) =
        ((r.tasks.zip r.results).map Prod.fst).map Prod.fst := by
      rw [List.map_map]
      rfl
    rw [h2, h1]
    exact htnd
  have hmem : ((q.1, q.2), Except.ok (some fn)) ∈ r.tasks.zip r.results := by
    rw [hrs]
    have h3 := zip_map_self_mem (fun t : Nat × String => oracle t.1 t.2) r.tasks q hq
    rw [show (fun t : Nat × String => oracle t.1 t.2) q = Except.ok (some fn) from hres] at h3
    exact h3
  rw [hdb]
  rw [applyTD_glbAt_success hb _ _ q.1 q.2 fn hznd hmem]
  rw [tdPhase1_glbAt_task hb hh fs _ db hnd q.1 ⟨q.2, ht ▸ hq⟩]

/-- The query `get_instructions_with_images` only reads fields outside `mp3_filename`. -/
theorem get_iwi_congr_mp3 (db1 db2 : List StepRow)
    (he : db1.map exceptMp3 = db2.map exceptMp3) (h : List Nat) :
    get_instructions_with_images db1 h = get_instructions_with_images db2 h := by
  induction db1 generalizing db2 with
  | nil => cases db2 with
    | nil => rfl
    | cons r2 rs2 => simp at he
  | cons r rs ih =>
    cases db2 with
    | nil => simp at he
    | cons r2 rs2 =>
      simp only [List.map_cons, List.cons.injEq] at he
      obtain ⟨h1, h2⟩ := he
      simp only [exceptMp3, Prod.mk.injEq] at h1
      obtain ⟨e1, e2, e3, e4, e5, e6, e7, e8⟩ := h1
      rw [get_iwi_cons, get_iwi_cons, e1, e3, e4, ih rs2 h2]

/-- C6: outcome isolation within and across derivation batches.  Given a
narration batch followed by (modelling the concurrent) 3D batch: every
narration task that returned a filename has it recorded on its step even if
other tasks raised; a narration task that raised leaves its step's mp3 field
exactly as before the run (unset stays unset); and every 3D task that
returned a filename has it recorded regardless of the narration failures. -/
theorem C6_failure_isolation (db : List StepRow) (fs : String → Option String)
    (oracleT oracleD : Nat → String → TaskOutcome) (hb : List Nat) (hh : String)
    (r1 : TTSRun)
    (hok : generate_tts_files db fs oracleT hb hh = .ok r1)
    (hndB : ((get_instructions_by_hash db hb).map Prod.fst).Nodup)
    (hndI : ((get_instructions_with_images db hb).map Prod.fst).Nodup) :
    (∀ p ∈ r1.tasks, ∀ fn, oracleT p.1 p.2 = .ok (some fn) →
      mp3At (generate_3d_models r1.db fs oracleD hb hh).db hb p.1 =
        (mp3At db hb p.1).map (fun _ => some fn)) ∧
    (∀ p ∈ r1.tasks, oracleT p.1 p.2 = .error () →
      mp3At (generate_3d_models r1.db fs oracleD hb hh).db hb p.1 = mp3At db hb p.1) ∧
    (∀ q ∈ (generate_3d_models r1.db fs oracleD hb hh).tasks, ∀ fn,
      oracleD q.1 q.2 = .ok (some fn) →
      glbAt (generate_3d_models r1.db fs oracleD hb hh).db hb q.1 =
        (glbAt db hb q.1).map (fun _ => some fn)) := by
  have hmp3inv : ∀ s, mp3At (generate_3d_models r1.db fs oracleD hb hh).db hb s =
      mp3At r1.db hb s :=
    fun s => mp3At_congr _ _ (generate_3d_exceptGlb r1.db fs oracleD hb hh) hb s
  refine ⟨?_, ?_, ?_⟩
  · intro p hp fn hres
    rw [hmp3inv p.1]
    exact generate_tts_mp3_set db fs oracleT hb hh r1 hok hndB p hp fn hres
  · intro p hp hres
    rw [hmp3inv p.1]
    exact generate_tts_mp3_failed db fs oracleT hb hh r1 hok hndB p hp (Or.inl hres)
  · intro q hq fn hres
    have hinv : ((get_instructions_with_images r1.db hb).map Prod.fst).Nodup := by
      rw [get_iwi_congr_mp3 r1.db db (generate_tts_exceptMp3 db fs oracleT hb hh r1 hok) hb]
      exact hndI
    rw [generate_3d_glb_set r1.db fs oracleD hb hh hinv q hq fn hres]
    rw [glbAt_congr r1.db db (generate_tts_exceptMp3 db fs oracleT hb hh r1 hok) hb q.1]

/-- C2: the orchestrator never performs an external derivation call for a
step whose deterministically named output artifact already exists (for both
narration and 3D batches, the submitted tasks are exactly steps whose
artifact is absent — existing ones only update the ledger and count as
reused); consequently, when every call of a first run succeeds (and hence
writes its deterministic output file) and no file is deleted, a second run
submits no task at all, performs zero external calls, and reports every step
as reused. -/
theorem C2_no_redundant_derivation (hb : List Nat) (hh : String) :
    (∀ (db : List StepRow) (fs : String → Option String)
      (oracle : Nat → String → TaskOutcome) (r : TTSRun),
      generate_tts_files db fs oracle hb hh = .ok r →
      ∀ p ∈ r.tasks, fs (mp3Name hh p.1) = none) ∧
    (∀ (db : List StepRow) (fs : String → Option String)
      (oracle : Nat → String → TaskOutcome),
      ∀ p ∈ (generate_3d_models db fs oracle hb hh).tasks,
        fs (glbName hh p.1) = none) ∧
    (∀ (db : List StepRow) (fs : String → Option String)
      (oracle1 : Nat → String → TaskOutcome) (r1 : TTSRun),
      generate_tts_files db fs oracle1 hb hh = .ok r1 →
      (∀ p ∈ r1.tasks, oracle1 p.1 p.2 = .ok (some (mp3Name hh p.1))) →
      ∀ oracle2 : Nat → String → TaskOutcome, ∃ r2 : TTSRun,
        generate_tts_files r1.db
          (fsWithFiles fs (r1.tasks.map (fun p => mp3Name hh p.1))) oracle2 hb hh =
          .ok r2 ∧
        r2.tasks = [] ∧ r2.results = [] ∧ r2.generated = 0 ∧
        r2.skipped = (get_instructions_by_hash db hb).length) ∧
    (∀ (db : List StepRow) (fs : String → Option String)
      (oracle1 : Nat → String → TaskOutcome),
      (∀ p ∈ (generate_3d_models db fs oracle1 hb hh).tasks,
        oracle1 p.1 p.2 = .ok (some (glbName hh p.1))) →
      ∀ oracle2 : Nat → String → TaskOutcome,
        (generate_3d_models (generate_3d_models db fs oracle1 hb hh).db
          (fsWithFiles fs
            ((generate_3d_models db fs oracle1 hb hh).tasks.map
              (fun p => glbName hh p.1))) oracle2 hb hh).tasks = [] ∧
        (generate_3d_models (generate_3d_models db fs oracle1 hb hh).db
          (fsWithFiles fs
            ((generate_3d_models db fs oracle1 hb hh).tasks.map
              (fun p => glbName hh p.1))) oracle2 hb hh).results = [] ∧
        (generate_3d_models (generate_3d_models db fs oracle1 hb hh).db
          (fsWithFiles fs
            ((generate_3d_models db fs oracle1 hb hh).tasks.map
              (fun p => glbName hh p.1))) oracle2 hb hh).generated = 0 ∧
        (generate_3d_models (generate_3d_models db fs oracle1 hb hh).db
          (fsWithFiles fs
            ((generate_3d_models db fs oracle1 hb hh).tasks.map
              (fun p => glbName hh p.1))) oracle2 hb hh).skipped =
          (get_instructions_with_images db hb).length) := by
  refine ⟨?_, ?_, ?_, ?_⟩
  · intro db fs oracle r hok p hp
    obtain ⟨db1, sk, hph, _, _, _, _⟩ := generate_tts_elim db fs oracle hb hh r hok
    exact ttsPhase1_tasks_no_file hb hh fs _ _ _ _ _ hph p hp
  · intro db fs oracle p hp
    obtain ⟨ht, _, _, _, _⟩ := generate_3d_elim db fs oracle hb hh
    exact tdPhase1_tasks_no_file hb hh fs _ db p (ht ▸ hp)
  · intro db fs oracle1 r1 hok hsucc oracle2
    obtain ⟨db1, sk, hph, _, _, _, _⟩ := generate_tts_elim db fs oracle1 hb hh r1 hok
    have hrows : get_instructions_by_hash r1.db hb = get_instructions_by_hash db hb :=
      get_ibh_congr r1.db db (generate_tts_exceptMp3 db fs oracle1 hb hh r1 hok) hb
    have hall : ∀ p ∈ get_instructions_by_hash db hb,
        ((fsWithFiles fs (r1.tasks.map (fun p => mp3Name hh p.1)))
          (mp3Name hh p.1)).isSome = true := by
      intro p hp
      unfold fsWithFiles
      by_cases hin : mp3Name hh p.1 ∈ r1.tasks.map (fun p => mp3Name hh p.1)
      · rw [if_pos hin]; rfl
      · rw [if_neg hin]
        rcases ttsPhase1_cases hb hh fs _ _ _ _ _ hph p hp with hc | ⟨d, hd⟩
        · exact hc
        · exact absurd (List.mem_map_of_mem (fun p => mp3Name hh p.1) hd) hin
    obtain ⟨db2, hph2⟩ := ttsPhase1_all_skipped hb hh
      (fsWithFiles fs (r1.tasks.map (fun p => mp3Name hh p.1)))
      (get_instructions_by_hash db hb) r1.db hall
    refine ⟨⟨db2, [], [], 0, (get_instructions_by_hash db hb).length⟩,
      ?_, rfl, rfl, rfl, rfl⟩
    simp only [generate_tts_files]
    rw [hrows, hph2]
    rfl
  · intro db fs oracle1 hsucc oracle2
    have hrows : get_instructions_with_images
        (generate_3d_models db fs oracle1 hb hh).db hb =
        get_instructions_with_images db hb :=
      get_iwi_congr _ db (generate_3d_exceptGlb db fs oracle1 hb hh) hb
    have hall : ∀ p ∈ get_instructions_with_images db hb,
        ((fsWithFiles fs
          ((generate_3d_models db fs oracle1 hb hh).tasks.map (fun p => glbName hh p.1)))
          (glbName hh p.1)).isSome = true := by
      intro p hp
      unfold fsWithFiles
      by_cases hin : glbName hh p.1 ∈
          (generate_3d_models db fs oracle1 hb hh).tasks.map (fun p => glbName hh p.1)
      · rw [if_pos hin]; rfl
      · rw [if_neg hin]
        obtain ⟨ht, _, _, _, _⟩ := generate_3d_elim db fs oracle1 hb hh
        rcases tdPhase1_cases hb hh fs _ db p hp with hc | ⟨d, hd⟩
        · exact hc
        · have hd2 : (p.1, d) ∈ (generate_3d_models db fs oracle1 hb hh).tasks := by
            rw [ht]
            exact hd
          exact absurd (List.mem_map_of_mem (fun p => glbName hh p.1) hd2) hin
    obtain ⟨h1, h2⟩ := tdPhase1_all_skipped hb hh
      (fsWithFiles fs
        ((generate_3d_models db fs oracle1 hb hh).tasks.map (fun p => glbName hh p.1)))
      (get_instructions_with_images db hb) (generate_3d_models db fs oracle1 hb hh).db hall
    obtain ⟨ht2, hrs2, hdb2, hgen2, hsk2⟩ := generate_3d_elim
      (generate_3d_models db fs oracle1 hb hh).db
      (fsWithFiles fs
        ((generate_3d_models db fs oracle1 hb hh).tasks.map (fun p => glbName hh p.1)))
      oracle2 hb hh
    rw [hrows] at ht2 hsk2
    have htasks : (generate_3d_models (generate_3d_models db fs oracle1 hb hh).db
        (fsWithFiles fs
          ((generate_3d_models db fs oracle1 hb hh).tasks.map (fun p => glbName hh p.1)))
        oracle2 hb hh).tasks = [] := by rw [ht2, h1]
    refine ⟨htasks, ?_, ?_, ?_⟩
    · rw [hrs2, htasks]
      rfl
    · rw [hgen2, htasks]
      rfl
    · rw [hsk2, h2]

/-- Counterexample for C2 as stated: the single step's narration call fails
on the first run, so no output file is written (tts.py writes the file only
after a successful response); with no files deleted in between, the second
run submits that step again — one external derivation request and zero
steps reported as reused, not "zero requests, all reused". -/
theorem C2_counterexample :
    ((generate_tts_files
        [⟨[0], "doc.pdf", 0, "00-0.png", none, none, "00-0.txt", none, none⟩]
        (fun n => if n = "00-0.txt" then some "T0\n\nD0" else none)
        (fun _ _ => .error ()) [0] "00").bind (fun r1 =>
      (generate_tts_files r1.db
        (fun n => if n = "00-0.txt" then some "T0\n\nD0" else none)
        (fun _ _ => .error ()) [0] "00").map
        (fun r2 => (r2.tasks.length, r2.skipped)))) = .ok (1, 0) ∧ (1 : Nat) ≠ 0 :=
  ⟨rfl, by decide⟩

/-- Witness for C2's amended statement: one ledger row whose narration call
succeeded on the first run; the second run submits nothing, touches no
oracle, and reports the single step as reused. -/
theorem C2_witness :
    (generate_tts_files
        [⟨[0], "doc.pdf", 0, "00-0.png", none, some "00-0.mp3", "00-0.txt", none, none⟩]
        (fsWithFiles (fun n => if n = "00-0.txt" then some "T0\n\nD0" else none)
          ["00-0.mp3"])
        (fun _ _ => .error ()) [0] "00").map
      (fun r2 => (r2.tasks, r2.results, r2.generated, r2.skipped)) =
      .ok ([], [], 0, 1) := by
  have h := (C2_no_redundant_derivation [0] "00").2.2.1
    [⟨[0], "doc.pdf", 0, "00-0.png", none, none, "00-0.txt", none, none⟩]
    (fun n => if n = "00-0.txt" then some "T0\n\nD0" else none)
    (fun s _ => .ok (some (mp3Name "00" s)))
    ⟨[⟨[0], "doc.pdf", 0, "00-0.png", none, some "00-0.mp3", "00-0.txt", none, none⟩],
     [(0, "D0")], [.ok (some "00-0.mp3")], 1, 0⟩
    rfl (fun p _ => rfl) (fun _ _ => .error ())
  obtain ⟨r2, he, h1, h2, h3, h4⟩ := h
  have he2 : (generate_tts_files
      [⟨[0], "doc.pdf", 0, "00-0.png", none, some "00-0.mp3", "00-0.txt", none, none⟩]
      (fsWithFiles (fun n => if n = "00-0.txt" then some "T0\n\nD0" else none)
        ["00-0.mp3"])
      (fun _ _ => .error ()) [0] "00") = .ok r2 := he
  rw [he2]
  simp only [Except.map]
  rw [h1, h2, h3, h4]
  rfl

/-- Witness for C6: two steps; the narration task for step 0 raises while
step 1 succeeds, and both 3D tasks succeed — step 1's mp3 and both glb
fields are recorded, step 0's mp3 stays unset. -/
theorem C6_witness :
    (mp3At (generate_3d_models
        [⟨[0], "doc.pdf", 0, "00-0.png", none, none, "00-0.txt", none, none⟩,
         ⟨[0], "doc.pdf", 1, "00-1.png", none, some "00-1.mp3", "00-1.txt", none, none⟩]
        (fun n => if n = "00-0.txt" then some "T0\n\nD0"
          else if n = "00-1.txt" then some "T1\n\nD1" else none)
        (fun s _ => .ok (some ("00-" ++ toString s ++ ".glb"))) [0] "00").db [0] 1 =
      (mp3At
        [⟨[0], "doc.pdf", 0, "00-0.png", none, none, "00-0.txt", none, none⟩,
         ⟨[0], "doc.pdf", 1, "00-1.png", none, none, "00-1.txt", none, none⟩]
        [0] 1).map (fun _ => some "00-1.mp3")) ∧
    (mp3At (generate_3d_models
        [⟨[0], "doc.pdf", 0, "00-0.png", none, none, "00-0.txt", none, none⟩,
         ⟨[0], "doc.pdf", 1, "00-1.png", none, some "00-1.mp3", "00-1.txt", none, none⟩]
        (fun n => if n = "00-0.txt" then some "T0\n\nD0"
          else if n = "00-1.txt" then some "T1\n\nD1" else none)
        (fun s _ => .ok (some ("00-" ++ toString s ++ ".glb"))) [0] "00").db [0] 0 =
      mp3At
        [⟨[0], "doc.pdf", 0, "00-0.png", none, none, "00-0.txt", none, none⟩,
         ⟨[0], "doc.pdf", 1, "00-1.png", none, none, "00-1.txt", none, none⟩]
        [0] 0) ∧
    (glbAt (generate_3d_models
        [⟨[0], "doc.pdf", 0, "00-0.png", none, none, "00-0.txt", none, none⟩,
         ⟨[0], "doc.pdf", 1, "00-1.png", none, some "00-1.mp3", "00-1.txt", none, none⟩]
        (fun n => if n = "00-0.txt" then some "T0\n\nD0"
          else if n = "00-1.txt" then some "T1\n\nD1" else none)
        (fun s _ => .ok (some ("00-" ++ toString s ++ ".glb"))) [0] "00").db [0] 0 =
      (glbAt
        [⟨[0], "doc.pdf", 0, "00-0.png", none, none, "00-0.txt", none, none⟩,
         ⟨[0], "doc.pdf", 1, "00-1.png", none, none, "00-1.txt", none, none⟩]
        [0] 0).map (fun _ => some "00-0.glb")) := by
  have h := C6_failure_isolation
    [⟨[0], "doc.pdf", 0, "00-0.png", none, none, "00-0.txt", none, none⟩,
     ⟨[0], "doc.pdf", 1, "00-1.png", none, none, "00-1.txt", none, none⟩]
    (fun n => if n = "00-0.txt" then some "T0\n\nD0"
      else if n = "00-1.txt" then some "T1\n\nD1" else none)
    (fun s _ => if s = 0 then .error () else .ok (some "00-1.mp3"))
    (fun s _ => .ok (some ("00-" ++ toString s ++ ".glb"))) [0] "00"
    ⟨[⟨[0], "doc.pdf", 0, "00-0.png", none, none, "00-0.txt", none, none⟩,
      ⟨[0], "doc.pdf", 1, "00-1.png", none, some "00-1.mp3", "00-1.txt", none, none⟩],
     [(0, "D0"), (1, "D1")], [.error (), .ok (some "00-1.mp3")], 1, 0⟩
    rfl (by decide) (by decide)
  exact ⟨h.1 (1, "D1") (by decide) "00-1.mp3" rfl,
    h.2.1 (0, "D0") (by decide) rfl,
    h.2.2 (0, "volume/00-0.png") (by decide) "00-0.glb" rfl⟩

/-- Witness for C7: a single submitted task; the 0-th gathered result is a
success and lands on the 0-th submitted step. -/
theorem C7_witness :
    mp3At [⟨[0], "doc.pdf", 0, "00-0.png", none, some "00-0.mp3", "00-0.txt", none, none⟩]
        [0] 0 =
      (mp3At [⟨[0], "doc.pdf", 0, "00-0.png", none, none, "00-0.txt", none, none⟩]
        [0] 0).map (fun _ => some "00-0.mp3") :=
  (C7_positional_pairing
    [⟨[0], "doc.pdf", 0, "00-0.png", none, none, "00-0.txt", none, none⟩]
    (fun n => if n = "00-0.txt" then some "T0\n\nD0" else none)
    (fun s _ => .ok (some (mp3Name "00" s))) [0] "00"
    ⟨[⟨[0], "doc.pdf", 0, "00-0.png", none, some "00-0.mp3", "00-0.txt", none, none⟩],
     [(0, "D0")], [.ok (some "00-0.mp3")], 1, 0⟩
    rfl (by decide)).2 0 (by decide) (by decide) "00-0.mp3" rfl

/-! Lemmas about the asset accessor. -/

/-- C4: when a ledger row exists for (hash-prefix, step) but its
`mp3_filename` is unset or the referenced file is missing from storage, the
accessor performs exactly one synchronous narration call (re-reading the
step's instruction text), returns the resulting audio artifact, and
afterwards every matching ledger row's `mp3_filename` is set. -/
theorem C4_accessor_regenerates (db : List StepRow) (fs : String → Option String)
    (oracle : Nat → String → Except Unit String) (hh : String) (s : Nat)
    (row : StepRow) (content : String) (fn : String)
    (hrow : get_file_info_by_hash_step db hh s = some row)
    (hmiss : row.mp3_filename = none ∨
      ∃ f, row.mp3_filename = some f ∧ (f = "" ∨ fs f = none))
    (hinstr : row.instruction_filename ≠ "")
    (hc : fs row.instruction_filename = some content)
    (horacle : oracle s (descriptionOf (pyStrip content)) = .ok fn) :
    get_mp3 db fs oracle hh s =
      .ok ⟨fn, update_mp3_filename_by_hash_hex db hh s fn, 1⟩ ∧
    ∀ r ∈ update_mp3_filename_by_hash_hex db hh s fn,
      hexMatches hh r.hash = true → r.step = s → r.mp3_filename = some fn := by
  constructor
  · simp only [get_mp3, hrow]
    have hregen :
        (if row.instruction_filename = "" then (.error .notFound : Except HttpErr Mp3Response)
          else if (fs row.instruction_filename).isNone then .error .notFound
          else
            match regenerate_single_tts fs oracle s row.instruction_filename with
            | .error _ => .error .internal
            | .ok mp3_filename =>
              .ok { served := mp3_filename
                    db := update_mp3_filename_by_hash_hex db hh s mp3_filename
                    narrationCalls := 1 }) =
        .ok ⟨fn, update_mp3_filename_by_hash_hex db hh s fn, 1⟩ := by
      rw [if_neg hinstr, if_neg (by rw [hc]; simp)]
      have hr2 : regenerate_single_tts fs oracle s row.instruction_filename = .ok fn := by
        unfold regenerate_single_tts
        rw [hc]
        exact horacle
      rw [hr2]
    cases hmval : row.mp3_filename with
    | none => exact hregen
    | some f =>
      have hfalse : (decide (f ≠ "") && (fs f).isSome) = false := by
        rcases hmiss with hm | ⟨g, hg, hbad⟩
        · rw [hmval] at hm
          exact absurd hm (by simp)
        · rw [hmval] at hg
          injection hg with hg
          subst hg
          rcases hbad with hb | hb
          · simp [hb]
          · simp [hb]
      have hstep2 : (if (decide (f ≠ "") && (fs f).isSome) = true
          then (Except.ok { served := f, db := db, narrationCalls := 0 } :
            Except HttpErr Mp3Response)
          else (if row.instruction_filename = "" then .error .notFound
            else if (fs row.instruction_filename).isNone then .error .notFound
            else
              match regenerate_single_tts fs oracle s row.instruction_filename with
              | .error _ => .error .internal
              | .ok mp3_filename =>
                .ok { served := mp3_filename
                      db := update_mp3_filename_by_hash_hex db hh s mp3_filename
                      narrationCalls := 1 })) =
          .ok ⟨fn, update_mp3_filename_by_hash_hex db hh s fn, 1⟩ := by
        rw [hfalse]
        simp only [Bool.false_eq_true, if_false, ite_false]
        exact hregen
      exact hstep2
  · intro r hr hmatch hstep
    unfold update_mp3_filename_by_hash_hex at hr
    obtain ⟨x, hx, hxr⟩ := List.mem_map.mp hr
    by_cases hcx : (hexMatches hh x.hash ∧ x.step = s)
    · rw [if_pos hcx] at hxr
      rw [← hxr]
    · rw [if_neg hcx] at hxr
      subst hxr
      exact absurd ⟨hmatch, hstep⟩ hcx

/-- Witness for C4: one row with unset mp3; the accessor performs one call
and the row afterwards carries the produced filename. -/
theorem C4_witness :
    get_mp3 [⟨[0], "doc.pdf", 2, "00-2.png", none, none, "00-2.txt", none, none⟩]
        (fun n => if n = "00-2.txt" then some "T2\n\nD2" else none)
        (fun _ _ => .ok "00-2.mp3") "00" 2 =
      .ok ⟨"00-2.mp3",
        update_mp3_filename_by_hash_hex
          [⟨[0], "doc.pdf", 2, "00-2.png", none, none, "00-2.txt", none, none⟩]
          "00" 2 "00-2.mp3", 1⟩ ∧
    ∀ r ∈ update_mp3_filename_by_hash_hex
        [⟨[0], "doc.pdf", 2, "00-2.png", none, none, "00-2.txt", none, none⟩]
        "00" 2 "00-2.mp3",
      hexMatches "00" r.hash = true → r.step = 2 → r.mp3_filename = some "00-2.mp3" :=
  C4_accessor_regenerates
    [⟨[0], "doc.pdf", 2, "00-2.png", none, none, "00-2.txt", none, none⟩]
    (fun n => if n = "00-2.txt" then some "T2\n\nD2" else none)
    (fun _ _ => .ok "00-2.mp3") "00" 2
    ⟨[0], "doc.pdf", 2, "00-2.png", none, none, "00-2.txt", none, none⟩
    "T2\n\nD2" "00-2.mp3" (by decide) (Or.inl rfl) (by decide) (by decide) rfl

/-! Lemmas about the ingestion pipeline. -/

theorem length_eq_of_map_eq {α β : Type} {f : α → β} {l1 l2 : List α}
    (h : l1.map f = l2.map f) : l1.length = l2.length := by
  have h2 := congrArg List.length h
  simpa using h2

/-- A narration batch never adds or removes ledger rows. -/
theorem generate_tts_db_length (db : List StepRow) (fs : String → Option String)
    (oracle : Nat → String → TaskOutcome) (hb : List Nat) (hh : String) (r : TTSRun)
    (hok : generate_tts_files db fs oracle hb hh = .ok r) :
    r.db.length = db.length :=
  length_eq_of_map_eq (generate_tts_exceptMp3 db fs oracle hb hh r hok)

/-- A 3D batch never adds or removes ledger rows. -/
theorem generate_3d_db_length (db : List StepRow) (fs : String → Option String)
    (oracle : Nat → String → TaskOutcome) (hb : List Nat) (hh : String) :
    (generate_3d_models db fs oracle hb hh).db.length = db.length :=
  length_eq_of_map_eq (generate_3d_exceptGlb db fs oracle hb hh)

/-- C3 (amended): re-ingesting a document whose identity already has ledger
rows adds zero rows and writes no artifacts — the materializer short-circuits
— but the pipeline still performs its one classification call (extraction
and classification run before the hash is even computed, so the dedup check
cannot prevent them). -/
theorem C3_reingest_short_circuits_but_classifies
    (H : List Nat → List Nat) (fsBytes : String → Option (List Nat))
    (fs : String → Option String) (env : PipelineEnv) (db : List StepRow)
    (gen_tts gen_3d : Bool) (ttsOr tdOr : Nat → String → TaskOutcome)
    (run : PipelineRun)
    (hex : db.filter (fun r =>
      r.hash = calculate_pdf_hash H fsBytes ("volume/" ++ env.pdf_filename)) ≠ [])
    (hok : process_pdf_pipeline H fsBytes fs env db gen_tts gen_3d ttsOr tdOr = .ok run) :
    run.classification_calls = 1 ∧ run.store.inserted = [] ∧ run.store.copied = [] ∧
    run.store.written = [] ∧ run.db.length = db.length := by
  obtain ⟨out, hst, hi, hcp, hwr⟩ := store_no_op_on_existing db
    (calculate_pdf_hash H fsBytes ("volume/" ++ env.pdf_filename)) env.pdf_filename
    env.image_filenames env.gemini_matches (some env.image_positions)
    (fun n => (fs n).isSome) hex
  simp only [process_pdf_pipeline, hst] at hok
  by_cases hpdf : (fsBytes ("volume/" ++ env.pdf_filename)).isNone
  · rw [if_pos hpdf] at hok
    exact absurd hok (by simp)
  · rw [if_neg hpdf] at hok
    cases gen_tts with
    | true =>
      cases htts : generate_tts_files (db ++ out.inserted) (fsAfterStore fs out) ttsOr
          (calculate_pdf_hash H fsBytes ("volume/" ++ env.pdf_filename))
          (hashHexOf (calculate_pdf_hash H fsBytes ("volume/" ++ env.pdf_filename))) with
      | error e =>
        rw [htts] at hok
        exact absurd hok (by simp [Except.map])
      | ok r =>
        rw [htts] at hok
        cases gen_3d with
        | true =>
          simp only [Except.map, if_true, ite_true, Except.ok.injEq] at hok
          rw [← hok]
          refine ⟨rfl, hi, hcp, hwr, ?_⟩
          rw [generate_3d_db_length]
          rw [generate_tts_db_length _ _ _ _ _ _ htts]
          simp [hi]
        | false =>
          simp only [Except.map, Bool.false_eq_true, if_false, ite_false, if_true,
            ite_true, Except.ok.injEq] at hok
          rw [← hok]
          refine ⟨rfl, hi, hcp, hwr, ?_⟩
          rw [generate_tts_db_length _ _ _ _ _ _ htts]
          simp [hi]
    | false =>
      cases gen_3d with
      | true =>
        simp only [Except.map, Bool.false_eq_true, if_false, ite_false, if_true,
          ite_true, Except.ok.injEq] at hok
        rw [← hok]
        refine ⟨rfl, hi, hcp, hwr, ?_⟩
        rw [generate_3d_db_length]
        simp [hi]
      | false =>
        simp only [Except.map, Bool.false_eq_true, if_false, ite_false,
          Except.ok.injEq] at hok
        rw [← hok]
        refine ⟨rfl, hi, hcp, hwr, ?_⟩
        simp [hi]

/-- Counterexample for C3 as stated: re-ingesting a document whose identity
already has a ledger row adds zero rows (the materializer short-circuits)
but still performs one classification call, not zero — `process_manual_images`
runs unconditionally before the hash is even computed. -/
theorem C3_counterexample :
    process_pdf_pipeline (fun _ => [7]) (fun _ => some [1]) (fun _ => none)
        ⟨"doc.pdf", [], [], []⟩
        [⟨[7], "doc.pdf", 0, "07-0.png", none, none, "07-0.txt", none, none⟩]
        false false (fun _ _ => .error ()) (fun _ _ => .error ()) =
      .ok ⟨1, [7], ⟨[7], [], [], []⟩,
        [⟨[7], "doc.pdf", 0, "07-0.png", none, none, "07-0.txt", none, none⟩]⟩ ∧
    (1 : Nat) ≠ 0 :=
  ⟨rfl, by decide⟩

/-- Witness for C3's amended statement: a full re-ingestion run (both
derivation flags on) over an already-ingested document — one classification
call, an empty store outcome, and an unchanged row count. -/
theorem C3_witness :
    (PipelineRun.mk 1 [7] ⟨[7], [], [], []⟩
      [⟨[7], "doc.pdf", 0, "07-0.png", some "07-0.glb", some "07-0.mp3", "07-0.txt",
        none, none⟩]).classification_calls = 1 ∧
    (PipelineRun.mk 1 [7] ⟨[7], [], [], []⟩
      [⟨[7], "doc.pdf", 0, "07-0.png", some "07-0.glb", some "07-0.mp3", "07-0.txt",
        none, none⟩]).store.inserted = [] ∧
    (PipelineRun.mk 1 [7] ⟨[7], [], [], []⟩
      [⟨[7], "doc.pdf", 0, "07-0.png", some "07-0.glb", some "07-0.mp3", "07-0.txt",
        none, none⟩]).store.copied = [] ∧
    (PipelineRun.mk 1 [7] ⟨[7], [], [], []⟩
      [⟨[7], "doc.pdf", 0, "07-0.png", some "07-0.glb", some "07-0.mp3", "07-0.txt",
        none, none⟩]).store.written = [] ∧
    (PipelineRun.mk 1 [7] ⟨[7], [], [], []⟩
      [⟨[7], "doc.pdf", 0, "07-0.png", some "07-0.glb", some "07-0.mp3", "07-0.txt",
        none, none⟩]).db.length =
      (([⟨[7], "doc.pdf", 0, "07-0.png", none, none, "07-0.txt", none, none⟩]) :
        List StepRow).length :=
  C3_reingest_short_circuits_but_classifies (fun _ => [7]) (fun _ => some [1])
    (fun n => if n = "07-0.txt" then some "T\n\nD" else none)
    ⟨"doc.pdf", [], [], []⟩
    [⟨[7], "doc.pdf", 0, "07-0.png", none, none, "07-0.txt", none, none⟩]
    true true
    (fun _ _ => .ok (some "07-0.mp3")) (fun _ _ => .ok (some "07-0.glb"))
    ⟨1, [7], ⟨[7], [], [], []⟩,
      [⟨[7], "doc.pdf", 0, "07-0.png", some "07-0.glb", some "07-0.mp3", "07-0.txt",
        none, none⟩]⟩
    (by decide) rfl
